import Mathlib

/-!
# WhileEvent (GDL/GDL/WhileEvent.cpp)

A shallow embedding of the `WhileEvent` event of Game Develop: persistence to an XML
element tree, generation of the `do { } while` code fragment, the cached rendered
height, and copy semantics.

External collaborators whose code is not part of `WhileEvent.cpp` (the instruction and
event codecs of `OpenSaveGame`, the `EventsCodeGenerator`, the code generation context,
the `EventsRenderingHelper`) are taken as parameters.
-/

namespace GDL

/-! ## Data model -/

/-- A condition or an action call: a type identifier and its ordered parameters. -/
structure Instruction where
  type : String
  parameters : List String
deriving DecidableEq, Repr

/-- An element of the XML tree (`TiXmlElement`): its value (the tag name), its attributes
and its child elements, in document order. -/
inductive TiXmlElement where
  | mk (value : String) (attributes : List (String × String)) (children : List TiXmlElement)

namespace TiXmlElement

/-- The tag name of an element (`TiXmlElement::Value`). -/
def value : TiXmlElement → String
  | mk v _ _ => v

/-- The attributes of an element. -/
def attributes : TiXmlElement → List (String × String)
  | mk _ a _ => a

/-- The child elements of an element, in document order. -/
def children : TiXmlElement → List TiXmlElement
  | mk _ _ c => c

/-- The element `new TiXmlElement( name )`: no attribute, no child. -/
def new (name : String) : TiXmlElement := mk name [] []

/-- The call `parent->LinkEndChild( child )`: `child` becomes the last child of `parent`. -/
def LinkEndChild (parent child : TiXmlElement) : TiXmlElement :=
  mk parent.value parent.attributes (parent.children ++ [child])

/-- The call `elem->FirstChildElement( name )`: the first child element whose value is
`name`, `none` for `NULL`. -/
def FirstChildElement (elem : TiXmlElement) (name : String) : Option TiXmlElement :=
  elem.children.find? (fun c => c.value == name)

end TiXmlElement

/-- A `WhileEvent`: the three instruction lists it owns, its sub-events (`Ev` is the type of
the entries of `events`, a `BaseEventSPtr` in the source) and the two mutable members of the
height cache. -/
structure WhileEvent (Ev : Type) where
  whileConditions : List Instruction
  conditions : List Instruction
  actions : List Instruction
  events : List Ev
  renderedHeight : Nat
  eventHeightNeedUpdate : Bool
deriving DecidableEq

/-- The codecs of `OpenSaveGame` used by `WhileEvent`. A `Save*` call receives the list and
the element to fill and yields the filled element; an `Open*` call receives the list to fill
(passed by reference in the source) and the element to read, and yields the list afterwards. -/
structure OpenSaveGame (Ev : Type) where
  SaveConditions : List Instruction → TiXmlElement → TiXmlElement
  OpenConditions : List Instruction → TiXmlElement → List Instruction
  SaveActions : List Instruction → TiXmlElement → TiXmlElement
  OpenActions : List Instruction → TiXmlElement → List Instruction
  SaveEvents : List Ev → TiXmlElement → TiXmlElement
  OpenEvents : List Ev → TiXmlElement → List Ev

namespace WhileEvent

variable {Ev : Type}

/-- The accessor `GetSubEvents()`. -/
def GetSubEvents (e : WhileEvent Ev) : List Ev := e.events

/-- The method `WhileEvent::SaveToXml(TiXmlElement * eventElem) const`: the element after
the call. -/
def SaveToXml (codec : OpenSaveGame Ev) (e : WhileEvent Ev) (eventElem : TiXmlElement) :
    TiXmlElement :=
  -- Save "While conditions"
  let whileConditionsElem := codec.SaveConditions e.whileConditions (TiXmlElement.new "WhileConditions")
  let eventElem := eventElem.LinkEndChild whileConditionsElem
  -- Conditions
  let conditionsElem := codec.SaveConditions e.conditions (TiXmlElement.new "Conditions")
  let eventElem := eventElem.LinkEndChild conditionsElem
  -- Actions
  let actionsElem := codec.SaveActions e.actions (TiXmlElement.new "Actions")
  let eventElem := eventElem.LinkEndChild actionsElem
  -- Sub-events
  if !e.GetSubEvents.isEmpty then
    let subeventsElem := codec.SaveEvents e.events (TiXmlElement.new "Events")
    eventElem.LinkEndChild subeventsElem
  else
    eventElem

/-- The method `WhileEvent::LoadFromXml(const TiXmlElement * eventElem)`: the event after the
call. The messages written to `cout` when an element is missing are not modelled. -/
def LoadFromXml (codec : OpenSaveGame Ev) (e : WhileEvent Ev) (eventElem : TiXmlElement) :
    WhileEvent Ev :=
  let e := match eventElem.FirstChildElement "WhileConditions" with
    | some el => { e with whileConditions := codec.OpenConditions e.whileConditions el }
    | none => e
  let e := match eventElem.FirstChildElement "Conditions" with
    | some el => { e with conditions := codec.OpenConditions e.conditions el }
    | none => e
  let e := match eventElem.FirstChildElement "Actions" with
    | some el => { e with actions := codec.OpenActions e.actions el }
    | none => e
  match eventElem.FirstChildElement "Events" with
  | some el => { e with events := codec.OpenEvents e.events el }
  | none => e

end WhileEvent

/-- A `Save*` call of the codec fills the element it is given and does not rename it. -/
structure OpenSaveGame.KeepsNames {Ev : Type} (codec : OpenSaveGame Ev) : Prop where
  conditions : ∀ l el, (codec.SaveConditions l el).value = el.value
  actions : ∀ l el, (codec.SaveActions l el).value = el.value
  events : ∀ l el, (codec.SaveEvents l el).value = el.value

/-- What "the codecs round-trip" means for `OpenSaveGame`: a `Save*` call fills the element
it is given without renaming it, and the matching `Open*` call, started from an empty list,
reads back the list that was saved into a new element. -/
structure OpenSaveGame.RoundTrips {Ev : Type} (codec : OpenSaveGame Ev) : Prop where
  names : codec.KeepsNames
  conditions : ∀ l name, codec.OpenConditions [] (codec.SaveConditions l (TiXmlElement.new name)) = l
  actions : ∀ l name, codec.OpenActions [] (codec.SaveActions l (TiXmlElement.new name)) = l
  events : ∀ l name, codec.OpenEvents [] (codec.SaveEvents l (TiXmlElement.new name)) = l

/-! ## Code generation -/

/-- Modelled from the spec: `ToString` of `GDL/CommonTools.h`, which is not part of the
sources at hand; the decimal text of an unsigned number. -/
def ToString (i : Nat) : String := Nat.repr i

/-- The code generator and the code generation context as `WhileEvent` uses them. `G` is the
state the calls may change besides the context (the game, the scene, the generator itself),
`C` the state of an `EventsCodeGenerationContext`. Every call yields its text and the states
after the call. -/
structure EventsCodeGenerator (G C Ev : Type) where
  /-- The context after `EventsCodeGenerationContext context;`. -/
  newContext : C
  /-- The context after `context.InheritsFrom(parentContext)`. -/
  InheritsFrom : C → C → C
  GenerateObjectsDeclarationCode : C → String × C
  GenerateConditionsListCode : G → List Instruction → C → String × G × C
  GenerateActionsListCode : G → List Instruction → C → String × G × C
  GenerateEventsListCode : G → List Ev → C → String × G × C

namespace WhileEvent

variable {Ev : Type}

/-- The local `whileIfPredicat` of `GenerateEventCode`: `"true"`, then one conjunct for each
index of `whileConditions` (`for (unsigned int i = 0;i<whileConditions.size();++i)`). The
counter is an `unsigned int`: the list is taken to hold fewer than `2^32` instructions. -/
def whileIfPredicat (e : WhileEvent Ev) : String :=
  (List.range e.whileConditions.length).foldl
    (fun acc i => acc ++ (" && condition" ++ ToString i ++ "IsTrue")) "true"

/-- The local `ifPredicat` of `GenerateEventCode`: `"true"`, then one conjunct for each index
of `conditions`. -/
def ifPredicat (e : WhileEvent Ev) : String :=
  (List.range e.conditions.length).foldl
    (fun acc i => acc ++ (" && condition" ++ ToString i ++ "IsTrue")) "true"

/-- The method `WhileEvent::GenerateEventCode`: the text returned and the state of the
generator after the call. The statements are in the order of the source. -/
def GenerateEventCode {G C : Type} (codeGenerator : EventsCodeGenerator G C Ev)
    (e : WhileEvent Ev) (g : G) (parentContext : C) : String × G :=
  let outputCode := ""
  -- Context is "reset" each time the event is repeated
  let context := codeGenerator.InheritsFrom codeGenerator.newContext parentContext
  -- Prepare codes
  let r := codeGenerator.GenerateConditionsListCode g e.whileConditions context
  let whileConditionsStr := r.1
  let whileIfPredicat := e.whileIfPredicat
  let r := codeGenerator.GenerateConditionsListCode r.2.1 e.conditions r.2.2
  let conditionsCode := r.1
  let r := codeGenerator.GenerateActionsListCode r.2.1 e.actions r.2.2
  let actionsCode := r.1
  let ifPredicat := e.ifPredicat
  -- Write final code
  let outputCode := outputCode ++ "bool stopDoWhile = false;"
  let outputCode := outputCode ++ "do"
  let outputCode := outputCode ++ "\x7b\n"
  let d := codeGenerator.GenerateObjectsDeclarationCode r.2.2
  let outputCode := outputCode ++ d.1
  let outputCode := outputCode ++ whileConditionsStr
  let outputCode := outputCode ++ ("if (" ++ whileIfPredicat ++ ")\n")
  let outputCode := outputCode ++ "\x7b\n"
  let outputCode := outputCode ++ conditionsCode
  let outputCode := outputCode ++ ("if (" ++ ifPredicat ++ ")\n")
  let outputCode := outputCode ++ "\x7b\n"
  let outputCode := outputCode ++ actionsCode
  let outputCode := outputCode ++ "\n\x7b //Subevents: \n"
  let s := codeGenerator.GenerateEventsListCode r.2.1 e.events d.2
  let outputCode := outputCode ++ s.1
  let outputCode := outputCode ++ "\x7d //Subevents end.\n"
  let outputCode := outputCode ++ "\x7d\n"
  let outputCode := outputCode ++ "\x7d else stopDoWhile = true; \n"
  let outputCode := outputCode ++ "\x7d while ( !stopDoWhile );\n"
  (outputCode, s.2.1)

end WhileEvent

/-- The five texts the generator and the context return during one `GenerateEventCode`. -/
structure GeneratedTexts where
  /-- The text of `context.GenerateObjectsDeclarationCode()`. -/
  declarations : String
  /-- The code of `whileConditions`. -/
  whileConditions : String
  /-- The code of `conditions`. -/
  conditions : String
  /-- The code of `actions`. -/
  actions : String
  /-- The code of the sub-events. -/
  subEvents : String

/-- The texts returned to `GenerateEventCode` by its collaborators, each call made on the
states the calls before it left: while-conditions, conditions, actions, then the
declarations of the context, then the sub-events. -/
def WhileEvent.generatedTexts {Ev G C : Type} (codeGenerator : EventsCodeGenerator G C Ev)
    (e : WhileEvent Ev) (g : G) (parentContext : C) : GeneratedTexts :=
  let context := codeGenerator.InheritsFrom codeGenerator.newContext parentContext
  let w := codeGenerator.GenerateConditionsListCode g e.whileConditions context
  let c := codeGenerator.GenerateConditionsListCode w.2.1 e.conditions w.2.2
  let a := codeGenerator.GenerateActionsListCode c.2.1 e.actions c.2.2
  let d := codeGenerator.GenerateObjectsDeclarationCode a.2.2
  let s := codeGenerator.GenerateEventsListCode a.2.1 e.events d.2
  { declarations := d.1, whileConditions := w.1, conditions := c.1, actions := a.1,
    subEvents := s.1 }

/-- The brace depth after reading `cs` from depth `d`; `none` when a closing brace has no
opening brace before it. -/
def braceDepth : List Char → Nat → Option Nat
  | [], d => some d
  | c :: cs, d =>
    if c = '{' then braceDepth cs (d + 1)
    else if c = '}' then (if d = 0 then none else braceDepth cs (d - 1))
    else braceDepth cs d

/-- A text is brace-balanced when every closing brace closes an earlier opening brace and
no brace is left open. -/
def BraceBalanced (s : String) : Prop := braceDepth s.data 0 = some 0

instance (s : String) : Decidable (BraceBalanced s) :=
  inferInstanceAs (Decidable (braceDepth s.data 0 = some 0))

/-- A character that is neither a brace, nor `=`, nor one that opens a comment or a
literal (`/`, the double quote, the single quote). -/
def plainChar (c : Char) : Bool :=
  c != '{' && c != '}' && c != '=' && c != '/' && c != Char.ofNat 34 && c != Char.ofNat 39

/-- The number of `=` characters of a text. -/
def countAssign (s : String) : Nat := s.data.count '='

/-! ### The generated text as C++ reads it -/

/-- Where a scanner of C++ text stands: in code, after a `/` in code, in a `//` comment, in a
block comment, after a `*` in a block comment, in a string or a character literal, or after
a backslash in one of them. -/
inductive Lex where
  | code
  | slash
  | lineComment
  | blockComment
  | blockStar
  | string
  | stringEscape
  | character
  | characterEscape
deriving DecidableEq, Repr

/-- The state of the scanner after one more character (34 is the double quote, 39 the
single quote, 92 the backslash). -/
def Lex.step : Lex → Char → Lex
  | .code, c =>
    if c = '/' then .slash else if c = Char.ofNat 34 then .string
    else if c = Char.ofNat 39 then .character else .code
  | .slash, c =>
    if c = '/' then .lineComment else if c = '*' then .blockComment
    else if c = Char.ofNat 34 then .string else if c = Char.ofNat 39 then .character
    else .code
  | .lineComment, c => if c = '\n' then .code else .lineComment
  | .blockComment, c => if c = '*' then .blockStar else .blockComment
  | .blockStar, c =>
    if c = '/' then .code else if c = '*' then .blockStar else .blockComment
  | .string, c =>
    if c = Char.ofNat 92 then .stringEscape else if c = Char.ofNat 34 then .code else .string
  | .stringEscape, _ => .string
  | .character, c =>
    if c = Char.ofNat 92 then .characterEscape else if c = Char.ofNat 39 then .code
    else .character
  | .characterEscape, _ => .character

/-- A character is read as code in the states `code` and `slash`. -/
def Lex.live : Lex → Bool
  | .code => true
  | .slash => true
  | _ => false

/-- One step of the scan: the state of the scanner and the depth of the open braces; a brace
counts when it is read as code; `none` when a closing brace closes nothing. -/
def scanStep (st : Lex × Nat) (c : Char) : Option (Lex × Nat) :=
  if st.1.live = true ∧ c = '{' then some (Lex.code, st.2 + 1)
  else if st.1.live = true ∧ c = '}' then
    (if st.2 = 0 then none else some (Lex.code, st.2 - 1))
  else some (st.1.step c, st.2)

/-- The scan of a text from a state and a depth. -/
def scan : List Char → Lex × Nat → Option (Lex × Nat)
  | [], st => some st
  | c :: cs, st =>
    match scanStep st c with
    | none => none
    | some st' => scan cs st'

/-- A text is lexically closed when, read from code, it ends in code with every brace that
it opens as code closed, and closes no other brace: no comment and no literal is left open
at its end, and the braces outside comments and literals pair up. -/
def Closed (s : String) : Prop := scan s.data (Lex.code, 0) = some (Lex.code, 0)

instance (s : String) : Decidable (Closed s) :=
  inferInstanceAs (Decidable (scan s.data (Lex.code, 0) = some (Lex.code, 0)))

/-- The texts that the statements of the generated fragment are made of. -/
inductive Piece where
  | declarations
  | whileConditions
  | conditions
  | actions
  | subEvents
deriving DecidableEq, Repr

/-- The two tests of the generated fragment. -/
inductive Test where
  | whilePredicate
  | guardPredicate
deriving DecidableEq, Repr

/-- The statements of the generated fragment, as a tree: the spaces, line ends and comments
that the event writes between statements, a text of the generator, the declaration and the
assignment of `stopDoWhile`, a sequence, a block in braces, the two forms of `if`, and the
`do` loop on `stopDoWhile`. -/
inductive Stmt where
  | layout (text : String)
  | fragment (piece : Piece) (text : String)
  | declareStop
  | setStop
  | seq (first second : Stmt)
  | block (body : Stmt)
  | ifThen (test : Test) (predicate : String) (thenBranch : Stmt)
  | ifThenElse (test : Test) (predicate : String) (thenBranch elseBranch : Stmt)
  | doWhileNotStop (body : Stmt)

/-- The text of a statement tree. -/
def Stmt.text : Stmt → String
  | .layout t => t
  | .fragment _ t => t
  | .declareStop => "bool stopDoWhile = false;"
  | .setStop => "stopDoWhile = true;"
  | .seq a b => a.text ++ b.text
  | .block b => "\x7b" ++ b.text ++ "\x7d"
  | .ifThen _ p t => "if (" ++ p ++ ")\n" ++ t.text
  | .ifThenElse _ p t e => "if (" ++ p ++ ")\n" ++ t.text ++ " else " ++ e.text
  | .doWhileNotStop b => "do" ++ b.text ++ " while ( !stopDoWhile );"

/-- The tests of a statement tree, in the order of the text, each with the number of blocks
of the tree that enclose it. -/
def Stmt.tests : Stmt → Nat → List (Nat × Test × String)
  | .layout _, _ => []
  | .fragment _ _, _ => []
  | .declareStop, _ => []
  | .setStop, _ => []
  | .seq a b, d => a.tests d ++ b.tests d
  | .block b, d => b.tests (d + 1)
  | .ifThen t p th, d => (d, t, p) :: th.tests d
  | .ifThenElse t p th el, d => (d, t, p) :: (th.tests d ++ el.tests d)
  | .doWhileNotStop b, d => b.tests d

/-- A word that the event writes (a keyword, a test, a brace, a declaration, the layout
between statements), read by the scanner: `none` when the word does not start in code or
does not end in code. -/
def readWord (s : String) (st : Lex × Nat) : Option (Lex × Nat) :=
  if st.1 = Lex.code then
    (scan s.data st).bind fun st' => if st'.1 = Lex.code then some st' else none
  else none

/-- A text of the generator, read by the scanner as statements: `none` when it does not
start in code, when it closes a brace that it did not open, or when a brace that it opens
stays open at its end; a comment or a literal left open at its end is carried to the word
that follows. -/
def readFragment (s : String) (st : Lex × Nat) : Option (Lex × Nat) :=
  if st.1 = Lex.code then
    (scan s.data (Lex.code, 0)).bind fun st' => if st'.2 = 0 then some (st'.1, st.2) else none
  else none

/-- The text of a statement tree read by the scanner, from a state and a depth: the state
and depth at the end of the text when the scanner reads every word of the tree as code, the
braces of every block of the tree as a pair, and every text of the generator as statements;
`none` when it does not, and the tree is then not what C++ reads in its text. -/
def Stmt.reads : Stmt → Lex × Nat → Option (Lex × Nat)
  | .layout t, st => readWord t st
  | .fragment _ t, st => readFragment t st
  | .declareStop, st => readWord "bool stopDoWhile = false;" st
  | .setStop, st => readWord "stopDoWhile = true;" st
  | .seq a b, st => (a.reads st).bind b.reads
  | .block b, st =>
    (((readWord "\x7b" st).bind b.reads).bind (readWord "\x7d")).bind fun st' =>
      if st'.2 = st.2 then some st' else none
  | .ifThen _ p t, st => (readWord ("if (" ++ p ++ ")\n") st).bind t.reads
  | .ifThenElse _ p t e, st =>
    (((readWord ("if (" ++ p ++ ")\n") st).bind t.reads).bind (readWord " else ")).bind e.reads
  | .doWhileNotStop b, st =>
    ((readWord "do" st).bind b.reads).bind (readWord " while ( !stopDoWhile );")

/-- What happens during a run of the fragment: a text of the generator is run, a test is
evaluated with a result, `stopDoWhile` is set to true. -/
inductive RunEvent where
  | ran (piece : Piece)
  | tested (test : Test) (result : Bool)
  | stopSet
deriving DecidableEq, Repr

/-- The meaning given to the texts of the generator and to the two predicates over program
states `S`: a text of the generator is run as statements that fall through to the next
statement and do not write `stopDoWhile`; a predicate is true or false in a state. -/
structure Meaning (S : Type) where
  run : Piece → S → S
  holds : Test → S → Bool

/-- A point of a run: the program state, the value of `stopDoWhile`, and what has happened
so far. -/
structure RunState (S : Type) where
  state : S
  stopDoWhile : Bool
  trace : List RunEvent

/-- The loop `do body while ( !stopDoWhile );` for at most `fuel` passes. -/
def doLoop {S : Type} (body : RunState S → RunState S) : Nat → RunState S → RunState S
  | 0, r => r
  | fuel + 1, r =>
    let r' := body r
    if r'.stopDoWhile then r' else doLoop body fuel r'

/-- The run of a statement tree; a loop makes at most `fuel` passes. -/
def Stmt.exec {S : Type} (m : Meaning S) (fuel : Nat) : Stmt → RunState S → RunState S
  | .layout _, r => r
  | .fragment p _, r =>
    { r with state := m.run p r.state, trace := r.trace ++ [RunEvent.ran p] }
  | .declareStop, r => { r with stopDoWhile := false }
  | .setStop, r => { r with stopDoWhile := true, trace := r.trace ++ [RunEvent.stopSet] }
  | .seq a b, r => b.exec m fuel (a.exec m fuel r)
  | .block b, r => b.exec m fuel r
  | .ifThen t _ th, r =>
    if m.holds t r.state then
      th.exec m fuel { r with trace := r.trace ++ [RunEvent.tested t true] }
    else { r with trace := r.trace ++ [RunEvent.tested t false] }
  | .ifThenElse t _ th el, r =>
    if m.holds t r.state then
      th.exec m fuel { r with trace := r.trace ++ [RunEvent.tested t true] }
    else el.exec m fuel { r with trace := r.trace ++ [RunEvent.tested t false] }
  | .doWhileNotStop b, r => doLoop (b.exec m fuel) fuel r

/-- The block of the `do` loop that `GenerateEventCode` writes, as a tree: the
declarations, the while-conditions code and the test of the while-predicate with the
assignment of `stopDoWhile` as its else branch; in the block of that test the conditions
code and the test of the guard predicate; in the block of that test the actions code and
the block of the sub-events. -/
def loopBody (t : GeneratedTexts) (whilePredicate guardPredicate : String) : Stmt :=
  let guardBody : Stmt :=
    .seq (.layout "\n") (.seq (.fragment .actions t.actions) (.seq (.layout "\n")
      (.seq (.block (.seq (.layout " //Subevents: \n") (.fragment .subEvents t.subEvents)))
        (.layout " //Subevents end.\n"))))
  let whileBody : Stmt :=
    .seq (.layout "\n") (.seq (.fragment .conditions t.conditions)
      (.seq (.ifThen .guardPredicate guardPredicate (.block guardBody)) (.layout "\n")))
  .block
    (.seq (.layout "\n") (.seq (.fragment .declarations t.declarations)
      (.seq (.fragment .whileConditions t.whileConditions)
        (.seq (.ifThenElse .whilePredicate whilePredicate (.block whileBody) .setStop)
          (.layout " \n")))))

/-- The statements that `GenerateEventCode` writes, as a tree: the declaration of
`stopDoWhile`, then the `do` loop on its block. -/
def statementTree (t : GeneratedTexts) (whilePredicate guardPredicate : String) : Stmt :=
  .seq .declareStop
    (.seq (.doWhileNotStop (loopBody t whilePredicate guardPredicate)) (.layout "\n"))

/-- The name of the flag that the conjunct of index `i` of a predicate refers to. -/
def flagName (i : Nat) : String := "condition" ++ ToString i ++ "IsTrue"

/-- The flag names the while-predicate refers to, in the order of the conjuncts. -/
def WhileEvent.whileFlags {Ev : Type} (e : WhileEvent Ev) : List String :=
  (List.range e.whileConditions.length).map flagName

/-- The flag names the guard predicate refers to, in the order of the conjuncts. -/
def WhileEvent.ifFlags {Ev : Type} (e : WhileEvent Ev) : List String :=
  (List.range e.conditions.length).map flagName

/-- The flag names that the predicate of a test refers to. -/
def WhileEvent.flagsOf {Ev : Type} (e : WhileEvent Ev) : Test → List String
  | .whilePredicate => e.whileFlags
  | .guardPredicate => e.ifFlags

/-- The flag names that the fragment refers to, each with the depth of the block that holds
the test referring to it, in the order of the text. -/
def WhileEvent.scopedFlags {Ev : Type} (e : WhileEvent Ev) (t : GeneratedTexts) :
    List (Nat × String) :=
  (((statementTree t e.whileIfPredicat e.ifPredicat).tests 0).map
    fun x => (e.flagsOf x.2.1).map (Prod.mk x.1)).flatten

/-- The number a list of decimal digits stands for. -/
def decodeDecimal (cs : List Char) : Nat :=
  cs.foldl (fun acc c => 10 * acc + (c.toNat - 48)) 0

/-! ## Rendered height -/

/-- The value of an integer expression held in an `unsigned int`: reduced modulo `2^32`. -/
def toUnsigned (x : Int) : Nat := (x % 4294967296).toNat

/-- The part of `EventsRenderingHelper` that `GetRenderedHeight` reads: the border, the width
of the conditions column, and the two measuring functions. A measuring function receives the
list and the width; the width is given as the value of the argument expression in
`unsigned int` (the conversion to the type of the parameter belongs to the function), and
the result is the value read into the `int` local of the caller. -/
structure EventsRenderingHelper where
  instructionsListBorder : Int
  GetConditionsColumnWidth : Int
  GetRenderedConditionsListHeight : List Instruction → Nat → Int
  GetRenderedActionsListHeight : List Instruction → Nat → Int

/-- The value of an integer expression converted to `int`: two's complement on 32 bits. -/
def toInt (x : Int) : Int := (x + 2147483648) % 4294967296 - 2147483648

/-- A `wxRect`: the position of the top left corner, the width and the height, all `int`. -/
structure wxRect where
  x : Int
  y : Int
  width : Int
  height : Int
deriving DecidableEq, Repr

/-- What `Render` asks of the drawing surface and of the rendering helper, one entry for
each call. A list is drawn at a position and with a width; the width is given, as for the
measuring functions, as the value of the argument expression in `unsigned int`. The areas
and the selection that the helper reads and fills while it draws a list are part of the
call and are not modelled further. -/
inductive DrawCommand where
  /-- The call `renderingHelper->DrawNiceRectangle(dc, rect)`. -/
  | DrawNiceRectangle (rect : wxRect)
  /-- The call `dc.SetFont( renderingHelper->GetNiceFont().Bold() )`. -/
  | SetFontNiceBold
  /-- The call `dc.SetTextForeground(wxColour(red, green, blue))`. -/
  | SetTextForeground (red green blue : Nat)
  /-- The call `dc.DrawText( text, x, y )`; the text is the one in the source, before
  translation. -/
  | DrawText (text : String) (x y : Int)
  /-- The call `renderingHelper->DrawConditionsList(conditions, dc, x, y, width, ...)`. -/
  | DrawConditionsList (conditions : List Instruction) (x y : Int) (width : Nat)
  /-- The call `renderingHelper->DrawActionsList(actions, dc, x, y, width, ...)`. -/
  | DrawActionsList (actions : List Instruction) (x y : Int) (width : Nat)
deriving DecidableEq

/-- The address of one of the instruction lists of an event, as held in the vectors that
`GetAllConditionsVectors` and `GetAllActionsVectors` return. -/
inductive InstructionsVectorPtr where
  | whileConditions
  | conditions
  | actions
deriving DecidableEq, Repr

namespace WhileEvent

variable {Ev : Type}

/-- The method `WhileEvent::GetRenderedHeight(unsigned int width) const`: the value returned
and the event afterwards (`renderedHeight` and `eventHeightNeedUpdate` are written by the
method). -/
def GetRenderedHeight (renderingHelper : EventsRenderingHelper) (e : WhileEvent Ev)
    (width : Nat) : Nat × WhileEvent Ev :=
  if e.eventHeightNeedUpdate then
    let border : Int := renderingHelper.instructionsListBorder
    let repeatHeight : Int := 20
    -- Get maximum height needed
    let whileConditionsHeight : Int :=
      renderingHelper.GetRenderedConditionsListHeight e.whileConditions
        (toUnsigned (width - 80 - border * 2))
    let conditionsHeight : Int :=
      renderingHelper.GetRenderedConditionsListHeight e.conditions
        (toUnsigned (renderingHelper.GetConditionsColumnWidth - border))
    let actionsHeight : Int :=
      renderingHelper.GetRenderedActionsListHeight e.actions
        (toUnsigned (width - renderingHelper.GetConditionsColumnWidth - border * 2))
    let renderedHeight : Nat :=
      toUnsigned (((if conditionsHeight > actionsHeight then conditionsHeight else actionsHeight)
        + whileConditionsHeight + repeatHeight) + border * 2 + border * 2)
    (renderedHeight, { e with renderedHeight := renderedHeight, eventHeightNeedUpdate := false })
  else
    (e.renderedHeight, e)

/-- The method `WhileEvent::Render`: the calls made on the drawing surface and on the
helper, in order, and the event afterwards (the call of `GetRenderedHeight` may write the
height cache). The arithmetic on `int` is exact: the sums are taken to stay within the range
of `int`; a value of type `unsigned int` handed to a `wxRect` is converted to `int`. -/
def Render (renderingHelper : EventsRenderingHelper) (e : WhileEvent Ev) (x y : Int)
    (width : Nat) : List DrawCommand × WhileEvent Ev :=
  let dc : List DrawCommand := []
  let border : Int := renderingHelper.instructionsListBorder
  let repeatHeight : Int := 20
  -- Draw header rectangle
  let whileConditionsHeight : Int :=
    renderingHelper.GetRenderedConditionsListHeight e.whileConditions
      (toUnsigned (width - 80 - border * 2)) + border * 2
  let headerRect : wxRect :=
    { x := x, y := y, width := toInt width, height := whileConditionsHeight + repeatHeight }
  let dc := dc ++ [DrawCommand.DrawNiceRectangle headerRect]
  -- While text
  let dc := dc ++ [DrawCommand.SetFontNiceBold]
  let dc := dc ++ [DrawCommand.SetTextForeground 0 0 0]
  let dc := dc ++ [DrawCommand.DrawText "Tant que :" (x + 5) (y + 5)]
  -- Draw "while conditions"
  let dc := dc ++ [DrawCommand.DrawConditionsList e.whileConditions (x + 80 + border)
    (y + border) (toUnsigned (width - 80 - border * 2))]
  let dc := dc ++ [DrawCommand.SetFontNiceBold]
  let dc := dc ++ [DrawCommand.SetTextForeground 0 0 0]
  let dc := dc ++ [DrawCommand.DrawText "Répéter :" (x + 4) (y + whileConditionsHeight + 3)]
  let whileConditionsHeight := whileConditionsHeight + repeatHeight
  -- Draw conditions rectangle
  let r := GetRenderedHeight renderingHelper e width
  let e := r.2
  let rect : wxRect :=
    { x := x, y := y + whileConditionsHeight,
      width := toInt (renderingHelper.GetConditionsColumnWidth + border),
      height := toInt (toUnsigned (r.1 - whileConditionsHeight)) }
  let dc := dc ++ [DrawCommand.DrawNiceRectangle rect]
  let dc := dc ++ [DrawCommand.DrawConditionsList e.conditions (x + border)
    (y + whileConditionsHeight + border)
    (toUnsigned (renderingHelper.GetConditionsColumnWidth - border))]
  let dc := dc ++ [DrawCommand.DrawActionsList e.actions
    (x + renderingHelper.GetConditionsColumnWidth + border)
    (y + whileConditionsHeight + border)
    (toUnsigned (width - renderingHelper.GetConditionsColumnWidth - border * 2))]
  (dc, e)

/-- The height as the specification words it, to be compared with `GetRenderedHeight`: the
while-conditions band, the band of 20, the larger of the conditions column and of the
column of the actions and the sub-events, and the borders. `subEventsHeight` is the height
that the sub-events take in that column. -/
def heightWithSubEvents (renderingHelper : EventsRenderingHelper)
    (subEventsHeight : List Ev → Nat → Int) (e : WhileEvent Ev) (width : Nat) : Int :=
  let border : Int := renderingHelper.instructionsListBorder
  let actionsWidth : Nat :=
    toUnsigned (width - renderingHelper.GetConditionsColumnWidth - border * 2)
  renderingHelper.GetRenderedConditionsListHeight e.whileConditions
      (toUnsigned (width - 80 - border * 2))
    + 20
    + max (renderingHelper.GetRenderedConditionsListHeight e.conditions
            (toUnsigned (renderingHelper.GetConditionsColumnWidth - border)))
          (renderingHelper.GetRenderedActionsListHeight e.actions actionsWidth
            + subEventsHeight e.events actionsWidth)
    + border * 2 + border * 2

/-- The method `WhileEvent::GetAllConditionsVectors`: `&whileConditions`, then `&conditions`. -/
def GetAllConditionsVectors (_e : WhileEvent Ev) : List InstructionsVectorPtr :=
  let allConditions := []
  let allConditions := allConditions ++ [InstructionsVectorPtr.whileConditions]
  let allConditions := allConditions ++ [InstructionsVectorPtr.conditions]
  allConditions

/-- The method `WhileEvent::GetAllActionsVectors`: `&actions`. -/
def GetAllActionsVectors (_e : WhileEvent Ev) : List InstructionsVectorPtr :=
  let allActions := []
  let allActions := allActions ++ [InstructionsVectorPtr.actions]
  allActions

/-- Reading the list of the event that a pointer refers to. -/
def read (e : WhileEvent Ev) : InstructionsVectorPtr → List Instruction
  | .whileConditions => e.whileConditions
  | .conditions => e.conditions
  | .actions => e.actions

/-- The event after the list a pointer refers to has been changed to `l` through the
pointer: the list is written in place and no other member of the event is. -/
def write (e : WhileEvent Ev) (p : InstructionsVectorPtr) (l : List Instruction) :
    WhileEvent Ev :=
  match p with
  | .whileConditions => { e with whileConditions := l }
  | .conditions => { e with conditions := l }
  | .actions => { e with actions := l }

end WhileEvent

/-! ## Copy -/

/-- A `BaseEventSPtr`: the address of an event object in the store. -/
abbrev BaseEventSPtr := Nat

/-- The store of the event objects: the object of address `a` is `store[a]`, and an object
that is created takes the next address. The entries of `events` of an object are addresses
in the store. -/
abbrev EventsStore := List (WhileEvent BaseEventSPtr)

/-- Modelled from the spec: the copy constructor of `BaseEvent`, whose declaration is not
part of the sources at hand. The base members are copied member by member; the members of
`WhileEvent` start empty. -/
def BaseEvent.copy (event : WhileEvent BaseEventSPtr) : WhileEvent BaseEventSPtr :=
  { whileConditions := [], conditions := [], actions := [], events := [],
    renderedHeight := event.renderedHeight,
    eventHeightNeedUpdate := event.eventHeightNeedUpdate }

/-- Modelled from the spec: the assignment operator of `BaseEvent`, whose declaration is not
part of the sources at hand. The base members are copied member by member; the members of
`WhileEvent` are left as they are. -/
def BaseEvent.assign (this event : WhileEvent BaseEventSPtr) : WhileEvent BaseEventSPtr :=
  { this with renderedHeight := event.renderedHeight,
              eventHeightNeedUpdate := event.eventHeightNeedUpdate }

/-- Modelled from the spec: `CloneVectorOfEvents`, which is not part of the sources at hand.
The sub-event tree is recursively cloned, not shared: each event of the vector is cloned, in
order, by `clone`, and the vector of the clones is returned. -/
def CloneVectorOfEvents
    (clone : EventsStore → BaseEventSPtr → Option (BaseEventSPtr × EventsStore)) :
    EventsStore → List BaseEventSPtr → Option (List BaseEventSPtr × EventsStore)
  | store, [] => some ([], store)
  | store, a :: rest =>
    match clone store a with
    | none => none
    | some (a', store1) =>
      match CloneVectorOfEvents clone store1 rest with
      | none => none
      | some (rest', store2) => some (a' :: rest', store2)

namespace WhileEvent

/-- The method `WhileEvent::Init(const WhileEvent & event)`: the object after the call and
the store after the clones have been created. -/
def Init (clone : EventsStore → BaseEventSPtr → Option (BaseEventSPtr × EventsStore))
    (store : EventsStore) (this event : WhileEvent BaseEventSPtr) :
    Option (WhileEvent BaseEventSPtr × EventsStore) :=
  match CloneVectorOfEvents clone store event.events with
  | none => none
  | some (events, store1) =>
    let this := { this with events := events }
    let this := { this with whileConditions := event.whileConditions }
    let this := { this with conditions := event.conditions }
    let this := { this with actions := event.actions }
    some (this, store1)

/-- The copy constructor `WhileEvent::WhileEvent(const WhileEvent & event)`: `BaseEvent(event)`,
then `Init(event)`; the new object takes the next address of the store, which is returned.
Modelled from the spec: a sub-event is cloned by copy construction of a new object (its
`Clone` is not part of the sources at hand). `fuel` bounds the depth of the tree; `none` when
it is exhausted or an address is not in the store. -/
def copyConstructor : Nat → EventsStore → BaseEventSPtr → Option (BaseEventSPtr × EventsStore)
  | 0, _, _ => none
  | fuel + 1, store, eventAddr =>
    match store[eventAddr]? with
    | none => none
    | some event =>
      match Init (copyConstructor fuel) store (BaseEvent.copy event) event with
      | none => none
      | some (this, store1) => some (store1.length, store1 ++ [this])

/-- The operator `WhileEvent::operator=(const WhileEvent & event)` called on the object of
address `thisAddr`: the store after the call. `fuel` bounds the depth of the sub-events.
Objects are never removed from the store: the release of the former sub-events of `this` is
not modelled. -/
def assign (fuel : Nat) (store : EventsStore) (thisAddr eventAddr : BaseEventSPtr) :
    Option EventsStore :=
  if thisAddr ≠ eventAddr then
    match store[thisAddr]?, store[eventAddr]? with
    | some this, some event =>
      match Init (copyConstructor fuel) store (BaseEvent.assign this event) event with
      | none => none
      | some (this', store1) => some (store1.set thisAddr this')
    | _, _ => none
  else
    some store

end WhileEvent

/-- The content of an event and of the tree of its sub-events, as a value. -/
inductive EventContent where
  | mk (whileConditions conditions actions : List Instruction) (events : List EventContent)

/-- The values `f` gives for the entries of a list, when it gives one for each. -/
def contentList (f : BaseEventSPtr → Option EventContent) :
    List BaseEventSPtr → Option (List EventContent)
  | [] => some []
  | a :: rest =>
    match f a with
    | none => none
    | some t =>
      match contentList f rest with
      | none => none
      | some ts => some (t :: ts)

/-- The content of the object of address `a` and of its sub-events, read from the store down
to depth `fuel`; `none` when the tree is deeper or an address is not in the store. -/
def content : Nat → EventsStore → BaseEventSPtr → Option EventContent
  | 0, _, _ => none
  | fuel + 1, store, a =>
    match store[a]? with
    | none => none
    | some obj =>
      match contentList (content fuel store) obj.events with
      | none => none
      | some kids => some (EventContent.mk obj.whileConditions obj.conditions obj.actions kids)

/-- The addresses of the objects of the tree of `a`: `a` itself and, down to depth `fuel`,
the objects its sub-events lead to. -/
def owned : Nat → EventsStore → BaseEventSPtr → List BaseEventSPtr
  | 0, _, a => [a]
  | fuel + 1, store, a =>
    a :: (match store[a]? with
      | none => []
      | some obj => obj.events.flatMap (owned fuel store))

/-- `IsolatedCopy fuel before after eAddr cAddr`: the object of address `cAddr` in the store
`after` is a deep copy of the object of address `eAddr` in the store `before`, and the two
share no object. That is: the three lists are equal; the sub-event lists have the same
length and, entry by entry, the same content; the tree of `eAddr` is in `after` what it was
in `before`; no object belongs to both trees; writing any value at any object of the tree of
the copy leaves every object and the content of the tree of `eAddr` as they were, and
writing at any object of the tree of `eAddr` leaves every object and the content of the tree
of the copy as they were. Trees are read down to depth `fuel + 1`. -/
def IsolatedCopy (fuel : Nat) (before after : EventsStore) (eAddr cAddr : BaseEventSPtr) :
    Prop :=
  ∃ e c t,
    before[eAddr]? = some e ∧ after[cAddr]? = some c ∧
    c.whileConditions = e.whileConditions ∧ c.conditions = e.conditions ∧
    c.actions = e.actions ∧
    c.events.length = e.events.length ∧
    c.events.map (content fuel after) = e.events.map (content fuel before) ∧
    content (fuel + 1) before eAddr = some t ∧
    content (fuel + 1) after eAddr = some t ∧
    content (fuel + 1) after cAddr = some t ∧
    (∀ y ∈ owned (fuel + 1) before eAddr, after[y]? = before[y]?) ∧
    (∀ x ∈ owned (fuel + 1) after cAddr, ∀ y ∈ owned (fuel + 1) after eAddr, x ≠ y) ∧
    (∀ x ∈ owned (fuel + 1) after cAddr, ∀ v,
      content (fuel + 1) (after.set x v) eAddr = some t ∧
      ∀ y ∈ owned (fuel + 1) after eAddr, (after.set x v)[y]? = before[y]?) ∧
    (∀ y ∈ owned (fuel + 1) after eAddr, ∀ v,
      content (fuel + 1) (after.set y v) cAddr = some t ∧
      ∀ x ∈ owned (fuel + 1) after cAddr, (after.set y v)[x]? = after[x]?)

/-! ## Sample inputs -/

/-- The element a sample codec writes for one instruction: the type is the tag, each
parameter an attribute. -/
def sampleInstructionElem (i : Instruction) : TiXmlElement :=
  TiXmlElement.mk i.type (i.parameters.map (fun p => ("value", p))) []

/-- The instruction a sample codec reads from one element. -/
def sampleElemInstruction (el : TiXmlElement) : Instruction :=
  { type := el.value, parameters := el.attributes.map Prod.snd }

/-- A sample codec: each instruction, and each sub-event (here a name), becomes one child of
the element to fill; reading appends to the list one entry per child. -/
def sampleCodec : OpenSaveGame String where
  SaveConditions l el := TiXmlElement.mk el.value el.attributes (el.children ++ l.map sampleInstructionElem)
  OpenConditions l el := l ++ el.children.map sampleElemInstruction
  SaveActions l el := TiXmlElement.mk el.value el.attributes (el.children ++ l.map sampleInstructionElem)
  OpenActions l el := l ++ el.children.map sampleElemInstruction
  SaveEvents l el := TiXmlElement.mk el.value el.attributes (el.children ++ l.map (fun n => TiXmlElement.new n))
  OpenEvents l el := l ++ el.children.map TiXmlElement.value

/-- A sample event with content in every list and one sub-event; its height cache is set. -/
def sampleEvent : WhileEvent String where
  whileConditions := [⟨"VarScene", ["i", "<", "10"]⟩]
  conditions := [⟨"KeyPressed", ["Space"]⟩, ⟨"Always", []⟩]
  actions := [⟨"ModVarScene", ["i", "+", "1"]⟩]
  events := ["Standard"]
  renderedHeight := 77
  eventHeightNeedUpdate := false

/-- A sample event without sub-events, whose height must be computed again. -/
def sampleLeafEvent : WhileEvent String where
  whileConditions := [⟨"VarScene", ["i", "<", "10"]⟩]
  conditions := []
  actions := [⟨"ModVarScene", ["i", "+", "1"]⟩]
  events := []
  renderedHeight := 0
  eventHeightNeedUpdate := true

/-- A newly constructed event: nothing in its lists. -/
def sampleNewEvent : WhileEvent String where
  whileConditions := []
  conditions := []
  actions := []
  events := []
  renderedHeight := 0
  eventHeightNeedUpdate := true

/-- A sample generator: the state counts the calls made, the context records the number of
instructions seen, and each text shows both. -/
def sampleGenerator : EventsCodeGenerator Nat Nat String where
  newContext := 0
  InheritsFrom _ parent := parent
  GenerateObjectsDeclarationCode c := ("/*objects " ++ ToString c ++ "*/\n", c)
  GenerateConditionsListCode g l c :=
    ("\x7b /*conditions " ++ ToString l.length ++ " call " ++ ToString g ++ "*/ \x7d\n", g + 1, c + l.length)
  GenerateActionsListCode g l c :=
    ("\x7b /*actions " ++ ToString l.length ++ " call " ++ ToString g ++ "*/ \x7d\n", g + 1, c + l.length)
  GenerateEventsListCode g l c :=
    ("\x7b /*events " ++ ToString l.length ++ " call " ++ ToString g ++ "*/ \x7d\n", g + 1, c)

/-- A sample generator whose conditions code ends in a line comment that no line end
closes: the state counts the calls, the first call for conditions yields the code of the
while-conditions, the next one the code of the conditions. No text has a brace. -/
def sampleCommentGenerator : EventsCodeGenerator Nat Unit String where
  newContext := ()
  InheritsFrom _ _ := ()
  GenerateObjectsDeclarationCode c := ("", c)
  GenerateConditionsListCode g _ c :=
    (if g = 0 then "bool condition0IsTrue = ready();\n"
     else "bool condition0IsTrue = armed(); // guard flags", g + 1, c)
  GenerateActionsListCode g _ c := ("fireMissiles();\n", g + 1, c)
  GenerateEventsListCode g _ c := ("", g + 1, c)

/-- A sample meaning over the states `Nat`: each text adds one to the state, the
while-predicate holds below 10 and the guard predicate holds in even states. -/
def sampleMeaning : Meaning Nat where
  run _ s := s + 1
  holds t s := match t with
    | .whilePredicate => decide (s < 10)
    | .guardPredicate => decide (s % 2 = 0)

/-- A sample rendering helper: border 5, conditions column 200 wide, 18 pixels for each
instruction, twice that in a column narrower than 300. -/
def sampleHelper : EventsRenderingHelper where
  instructionsListBorder := 5
  GetConditionsColumnWidth := 200
  GetRenderedConditionsListHeight l w := if w < 300 then 36 * l.length else 18 * l.length
  GetRenderedActionsListHeight l w := if w < 300 then 36 * l.length else 18 * l.length

/-- A sample store: at address 3 an event with the two sub-events of addresses 1 and 2, the
first of which has the sub-event of address 0; at address 4 an event without content. -/
def sampleStore : EventsStore :=
  [ { whileConditions := [], conditions := [⟨"Always", []⟩], actions := [⟨"Quit", []⟩],
      events := [], renderedHeight := 0, eventHeightNeedUpdate := true },
    { whileConditions := [⟨"VarScene", ["j", "<", "3"]⟩], conditions := [],
      actions := [⟨"ModVarScene", ["j", "+", "1"]⟩],
      events := [0], renderedHeight := 60, eventHeightNeedUpdate := false },
    { whileConditions := [], conditions := [], actions := [⟨"Create", ["Ball"]⟩],
      events := [], renderedHeight := 0, eventHeightNeedUpdate := true },
    { whileConditions := [⟨"VarScene", ["i", "<", "10"]⟩], conditions := [⟨"Always", []⟩],
      actions := [⟨"ModVarScene", ["i", "+", "1"]⟩],
      events := [1, 2], renderedHeight := 76, eventHeightNeedUpdate := false },
    { whileConditions := [], conditions := [], actions := [],
      events := [], renderedHeight := 0, eventHeightNeedUpdate := true } ]

/-- The sample store after the event of address 3 has been copy constructed: the copy is
the object of address 8, its sub-events are the objects of addresses 6 and 7. -/
def sampleCopiedStore : EventsStore :=
  match WhileEvent.copyConstructor 3 sampleStore 3 with
  | some (_, store) => store
  | none => []

/-- The change of the deep-copy example: one more action at the end of the actions. -/
def appendAction (obj : WhileEvent BaseEventSPtr) : WhileEvent BaseEventSPtr :=
  { obj with actions := obj.actions ++ [⟨"Quit", []⟩] }

/-- The store after an action has been appended to the first sub-event of the copy, the
object of address 6. -/
def sampleChangedStore : EventsStore :=
  match sampleCopiedStore[6]? with
  | some child => sampleCopiedStore.set 6 (appendAction child)
  | none => sampleCopiedStore

/-! ## Theorems -/

/-! ### Persistence -/

theorem TiXmlElement.value_new (name : String) : (TiXmlElement.new name).value = name := rfl

theorem sampleCodec_roundTrips : sampleCodec.RoundTrips where
  names := ⟨fun _ _ => rfl, fun _ _ => rfl, fun _ _ => rfl⟩
  conditions l name := by
    have h : ∀ i, sampleElemInstruction (sampleInstructionElem i) = i := by
      intro i
      simp [sampleElemInstruction, sampleInstructionElem, TiXmlElement.value,
        TiXmlElement.attributes, Function.comp_def]
    simp [sampleCodec, TiXmlElement.new, TiXmlElement.children, Function.comp_def, h]
  actions l name := by
    have h : ∀ i, sampleElemInstruction (sampleInstructionElem i) = i := by
      intro i
      simp [sampleElemInstruction, sampleInstructionElem, TiXmlElement.value,
        TiXmlElement.attributes, Function.comp_def]
    simp [sampleCodec, TiXmlElement.new, TiXmlElement.children, Function.comp_def, h]
  events l name := by
    simp [sampleCodec, TiXmlElement.new, TiXmlElement.children, TiXmlElement.value,
      Function.comp_def]

/-- The children `SaveToXml` leaves under the element. -/
theorem WhileEvent.SaveToXml_eq {Ev : Type} (codec : OpenSaveGame Ev) (e : WhileEvent Ev)
    (node : TiXmlElement) :
    WhileEvent.SaveToXml codec e node =
      TiXmlElement.mk node.value node.attributes
        (node.children ++
          ([codec.SaveConditions e.whileConditions (TiXmlElement.new "WhileConditions"),
            codec.SaveConditions e.conditions (TiXmlElement.new "Conditions"),
            codec.SaveActions e.actions (TiXmlElement.new "Actions")] ++
           (if e.events.isEmpty then []
            else [codec.SaveEvents e.events (TiXmlElement.new "Events")]))) := by
  cases hev : e.events with
  | nil =>
    simp [WhileEvent.SaveToXml, WhileEvent.GetSubEvents, hev, TiXmlElement.LinkEndChild,
      TiXmlElement.value, TiXmlElement.attributes, TiXmlElement.children]
  | cons x xs =>
    simp [WhileEvent.SaveToXml, WhileEvent.GetSubEvents, hev, TiXmlElement.LinkEndChild,
      TiXmlElement.value, TiXmlElement.attributes, TiXmlElement.children]

/-- What `LoadFromXml` leaves in `whileConditions`. -/
theorem WhileEvent.LoadFromXml_whileConditions {Ev : Type} (codec : OpenSaveGame Ev)
    (e : WhileEvent Ev) (el : TiXmlElement) :
    (WhileEvent.LoadFromXml codec e el).whileConditions =
      match el.FirstChildElement "WhileConditions" with
      | some x => codec.OpenConditions e.whileConditions x
      | none => e.whileConditions := by
  unfold WhileEvent.LoadFromXml
  cases el.FirstChildElement "WhileConditions" <;> cases el.FirstChildElement "Conditions" <;>
    cases el.FirstChildElement "Actions" <;> cases el.FirstChildElement "Events" <;> rfl

/-- What `LoadFromXml` leaves in `conditions`. -/
theorem WhileEvent.LoadFromXml_conditions {Ev : Type} (codec : OpenSaveGame Ev)
    (e : WhileEvent Ev) (el : TiXmlElement) :
    (WhileEvent.LoadFromXml codec e el).conditions =
      match el.FirstChildElement "Conditions" with
      | some x => codec.OpenConditions e.conditions x
      | none => e.conditions := by
  unfold WhileEvent.LoadFromXml
  cases el.FirstChildElement "WhileConditions" <;> cases el.FirstChildElement "Conditions" <;>
    cases el.FirstChildElement "Actions" <;> cases el.FirstChildElement "Events" <;> rfl

/-- What `LoadFromXml` leaves in `actions`. -/
theorem WhileEvent.LoadFromXml_actions {Ev : Type} (codec : OpenSaveGame Ev)
    (e : WhileEvent Ev) (el : TiXmlElement) :
    (WhileEvent.LoadFromXml codec e el).actions =
      match el.FirstChildElement "Actions" with
      | some x => codec.OpenActions e.actions x
      | none => e.actions := by
  unfold WhileEvent.LoadFromXml
  cases el.FirstChildElement "WhileConditions" <;> cases el.FirstChildElement "Conditions" <;>
    cases el.FirstChildElement "Actions" <;> cases el.FirstChildElement "Events" <;> rfl

/-- What `LoadFromXml` leaves in `events`. -/
theorem WhileEvent.LoadFromXml_events {Ev : Type} (codec : OpenSaveGame Ev)
    (e : WhileEvent Ev) (el : TiXmlElement) :
    (WhileEvent.LoadFromXml codec e el).events =
      match el.FirstChildElement "Events" with
      | some x => codec.OpenEvents e.events x
      | none => e.events := by
  unfold WhileEvent.LoadFromXml
  cases el.FirstChildElement "WhileConditions" <;> cases el.FirstChildElement "Conditions" <;>
    cases el.FirstChildElement "Actions" <;> cases el.FirstChildElement "Events" <;> rfl

/-- The height cache is not touched by `LoadFromXml`. -/
theorem WhileEvent.LoadFromXml_cache {Ev : Type} (codec : OpenSaveGame Ev)
    (e : WhileEvent Ev) (el : TiXmlElement) :
    (WhileEvent.LoadFromXml codec e el).renderedHeight = e.renderedHeight ∧
    (WhileEvent.LoadFromXml codec e el).eventHeightNeedUpdate = e.eventHeightNeedUpdate := by
  unfold WhileEvent.LoadFromXml
  cases el.FirstChildElement "WhileConditions" <;> cases el.FirstChildElement "Conditions" <;>
    cases el.FirstChildElement "Actions" <;> cases el.FirstChildElement "Events" <;>
    exact ⟨rfl, rfl⟩

theorem TiXmlElement.FirstChildElement_mk (v : String) (a : List (String × String))
    (cs : List TiXmlElement) (name : String) :
    (TiXmlElement.mk v a cs).FirstChildElement name = cs.find? (fun c => c.value == name) := rfl

/-- C1. Round trip: with codecs that round-trip, saving an event into an element without
children and loading that element into an event whose lists are empty gives back the four
lists of the saved event, whatever the height caches of the two events are, also when the
saved event has no sub-event. -/
theorem WhileEvent.LoadFromXml_SaveToXml {Ev : Type} (codec : OpenSaveGame Ev)
    (hrt : codec.RoundTrips) (e fresh : WhileEvent Ev) (node : TiXmlElement)
    (hnode : node.children = [])
    (hw : fresh.whileConditions = []) (hc : fresh.conditions = [])
    (ha : fresh.actions = []) (he : fresh.events = []) :
    (WhileEvent.LoadFromXml codec fresh (WhileEvent.SaveToXml codec e node)).whileConditions
        = e.whileConditions ∧
    (WhileEvent.LoadFromXml codec fresh (WhileEvent.SaveToXml codec e node)).conditions
        = e.conditions ∧
    (WhileEvent.LoadFromXml codec fresh (WhileEvent.SaveToXml codec e node)).actions
        = e.actions ∧
    (WhileEvent.LoadFromXml codec fresh (WhileEvent.SaveToXml codec e node)).events
        = e.events := by
  have n1 := hrt.names.conditions e.whileConditions (TiXmlElement.new "WhileConditions")
  have n2 := hrt.names.conditions e.conditions (TiXmlElement.new "Conditions")
  have n3 := hrt.names.actions e.actions (TiXmlElement.new "Actions")
  have n4 := hrt.names.events e.events (TiXmlElement.new "Events")
  rw [TiXmlElement.value_new] at n1 n2 n3 n4
  rw [WhileEvent.LoadFromXml_whileConditions, WhileEvent.LoadFromXml_conditions,
    WhileEvent.LoadFromXml_actions, WhileEvent.LoadFromXml_events, WhileEvent.SaveToXml_eq]
  simp only [TiXmlElement.FirstChildElement_mk, hnode, List.nil_append, hw, hc, ha, he]
  cases hev : e.events with
  | nil =>
    simp [List.find?, n1, n2, n3, hrt.conditions, hrt.actions]
  | cons x xs =>
    rw [hev] at n4
    simp [List.find?, n1, n2, n3, n4, hrt.conditions, hrt.actions]
    rw [← hev, hrt.events]

/-- The round trip at the sample event (one sub-event, a set height cache), loaded into a
newly constructed event. -/
theorem WhileEvent.LoadFromXml_SaveToXml_witness :
    (WhileEvent.LoadFromXml sampleCodec sampleNewEvent
        (WhileEvent.SaveToXml sampleCodec sampleEvent (TiXmlElement.new "Event"))).whileConditions
        = sampleEvent.whileConditions ∧
    (WhileEvent.LoadFromXml sampleCodec sampleNewEvent
        (WhileEvent.SaveToXml sampleCodec sampleEvent (TiXmlElement.new "Event"))).conditions
        = sampleEvent.conditions ∧
    (WhileEvent.LoadFromXml sampleCodec sampleNewEvent
        (WhileEvent.SaveToXml sampleCodec sampleEvent (TiXmlElement.new "Event"))).actions
        = sampleEvent.actions ∧
    (WhileEvent.LoadFromXml sampleCodec sampleNewEvent
        (WhileEvent.SaveToXml sampleCodec sampleEvent (TiXmlElement.new "Event"))).events
        = sampleEvent.events :=
  WhileEvent.LoadFromXml_SaveToXml sampleCodec sampleCodec_roundTrips sampleEvent sampleNewEvent
    (TiXmlElement.new "Event") rfl rfl rfl rfl rfl

theorem TiXmlElement.FirstChildElement_eq_none (el : TiXmlElement) (name : String)
    (h : ∀ c ∈ el.children, c.value ≠ name) : el.FirstChildElement name = none := by
  unfold TiXmlElement.FirstChildElement
  rw [List.find?_eq_none]
  intro c hc
  simpa using h c hc

/-- C5, as stated, fails: loading an element without `Actions` child into an event that
already holds an action leaves that action in place, so the list is not empty afterwards. -/
theorem WhileEvent.LoadFromXml_missing_Actions_not_empty :
    (∀ c ∈ (TiXmlElement.new "Event").children, c.value ≠ "Actions") ∧
    sampleEvent.actions = [⟨"ModVarScene", ["i", "+", "1"]⟩] ∧
    (WhileEvent.LoadFromXml sampleCodec sampleEvent (TiXmlElement.new "Event")).actions
      = [⟨"ModVarScene", ["i", "+", "1"]⟩] ∧
    (WhileEvent.LoadFromXml sampleCodec sampleEvent (TiXmlElement.new "Event")).actions ≠ [] := by
  refine ⟨?_, rfl, rfl, ?_⟩
  · intro c hc
    simp [TiXmlElement.new, TiXmlElement.children] at hc
  · intro h
    have h2 : (WhileEvent.LoadFromXml sampleCodec sampleEvent (TiXmlElement.new "Event")).actions
        = [⟨"ModVarScene", ["i", "+", "1"]⟩] := rfl
    rw [h2] at h
    exact List.cons_ne_nil _ _ h

/-- C5, amended. Missing-element tolerance: `LoadFromXml` is total, and when the element has
no `Actions` child the actions list is left as it was before the call, hence empty when it
was empty before (as in a newly constructed event); likewise for a missing `Conditions`
child and `conditions`, and a missing `WhileConditions` child and `whileConditions`. -/
theorem WhileEvent.LoadFromXml_missing_child {Ev : Type} (codec : OpenSaveGame Ev)
    (e : WhileEvent Ev) (el : TiXmlElement) :
    ((∀ c ∈ el.children, c.value ≠ "Actions") →
      (WhileEvent.LoadFromXml codec e el).actions = e.actions ∧
      (e.actions = [] → (WhileEvent.LoadFromXml codec e el).actions = [])) ∧
    ((∀ c ∈ el.children, c.value ≠ "Conditions") →
      (WhileEvent.LoadFromXml codec e el).conditions = e.conditions ∧
      (e.conditions = [] → (WhileEvent.LoadFromXml codec e el).conditions = [])) ∧
    ((∀ c ∈ el.children, c.value ≠ "WhileConditions") →
      (WhileEvent.LoadFromXml codec e el).whileConditions = e.whileConditions ∧
      (e.whileConditions = [] → (WhileEvent.LoadFromXml codec e el).whileConditions = [])) := by
  refine ⟨fun h => ?_, fun h => ?_, fun h => ?_⟩
  · have hk : (WhileEvent.LoadFromXml codec e el).actions = e.actions := by
      rw [WhileEvent.LoadFromXml_actions, TiXmlElement.FirstChildElement_eq_none el _ h]
    exact ⟨hk, fun h0 => hk.trans h0⟩
  · have hk : (WhileEvent.LoadFromXml codec e el).conditions = e.conditions := by
      rw [WhileEvent.LoadFromXml_conditions, TiXmlElement.FirstChildElement_eq_none el _ h]
    exact ⟨hk, fun h0 => hk.trans h0⟩
  · have hk : (WhileEvent.LoadFromXml codec e el).whileConditions = e.whileConditions := by
      rw [WhileEvent.LoadFromXml_whileConditions, TiXmlElement.FirstChildElement_eq_none el _ h]
    exact ⟨hk, fun h0 => hk.trans h0⟩

/-- Loading an element without any child into a newly constructed event leaves the three
instruction lists empty. -/
theorem WhileEvent.LoadFromXml_missing_child_witness :
    (WhileEvent.LoadFromXml sampleCodec sampleNewEvent (TiXmlElement.new "Event")).actions = [] ∧
    (WhileEvent.LoadFromXml sampleCodec sampleNewEvent (TiXmlElement.new "Event")).conditions = [] ∧
    (WhileEvent.LoadFromXml sampleCodec sampleNewEvent (TiXmlElement.new "Event")).whileConditions
      = [] :=
  have hno : ∀ name : String, ∀ c ∈ (TiXmlElement.new "Event").children, c.value ≠ name := by
    intro name c hc
    simp [TiXmlElement.new, TiXmlElement.children] at hc
  have h := WhileEvent.LoadFromXml_missing_child sampleCodec sampleNewEvent
    (TiXmlElement.new "Event")
  ⟨(h.1 (hno _)).2 rfl, (h.2.1 (hno _)).2 rfl, (h.2.2 (hno _)).2 rfl⟩

/-- C6. `SaveToXml` keeps the element's name, attributes and former children and appends, in
this order, the filled `WhileConditions`, `Conditions` and `Actions` elements, then the filled
`Events` element exactly when the event has sub-events; with no sub-event exactly three
children are added. The event is an input only: the call yields the element alone. -/
theorem WhileEvent.SaveToXml_appends {Ev : Type} (codec : OpenSaveGame Ev)
    (hn : codec.KeepsNames) (e : WhileEvent Ev) (node : TiXmlElement) :
    (WhileEvent.SaveToXml codec e node).value = node.value ∧
    (WhileEvent.SaveToXml codec e node).attributes = node.attributes ∧
    (WhileEvent.SaveToXml codec e node).children =
      node.children ++
        ([codec.SaveConditions e.whileConditions (TiXmlElement.new "WhileConditions"),
          codec.SaveConditions e.conditions (TiXmlElement.new "Conditions"),
          codec.SaveActions e.actions (TiXmlElement.new "Actions")] ++
         (if e.events.isEmpty then []
          else [codec.SaveEvents e.events (TiXmlElement.new "Events")])) ∧
    ((WhileEvent.SaveToXml codec e node).children.drop node.children.length).map
        TiXmlElement.value =
      ["WhileConditions", "Conditions", "Actions"] ++
        (if e.events.isEmpty then [] else ["Events"]) ∧
    (e.events = [] →
      (WhileEvent.SaveToXml codec e node).children.length = node.children.length + 3) ∧
    (e.events ≠ [] →
      (WhileEvent.SaveToXml codec e node).children.length = node.children.length + 4) := by
  have n1 := hn.conditions e.whileConditions (TiXmlElement.new "WhileConditions")
  have n2 := hn.conditions e.conditions (TiXmlElement.new "Conditions")
  have n3 := hn.actions e.actions (TiXmlElement.new "Actions")
  have n4 := hn.events e.events (TiXmlElement.new "Events")
  rw [TiXmlElement.value_new] at n1 n2 n3 n4
  rw [WhileEvent.SaveToXml_eq]
  refine ⟨rfl, rfl, rfl, ?_, ?_, ?_⟩
  · simp only [TiXmlElement.children, List.drop_left]
    cases hev : e.events with
    | nil => simp [n1, n2, n3]
    | cons x xs =>
      rw [hev] at n4
      simp [n1, n2, n3, n4]
  · intro hev
    simp [TiXmlElement.children, hev]
  · intro hev
    cases hev2 : e.events with
    | nil => exact absurd hev2 hev
    | cons x xs => simp [TiXmlElement.children]

/-- The children written for the sample event (one sub-event) under an element that
already has a child. -/
theorem WhileEvent.SaveToXml_appends_witness :
    ((WhileEvent.SaveToXml sampleCodec sampleEvent
        (TiXmlElement.mk "Event" [] [TiXmlElement.new "Type"])).children.drop 1).map
        TiXmlElement.value = ["WhileConditions", "Conditions", "Actions", "Events"] ∧
    ((WhileEvent.SaveToXml sampleCodec sampleLeafEvent
        (TiXmlElement.mk "Event" [] [TiXmlElement.new "Type"])).children.drop 1).map
        TiXmlElement.value = ["WhileConditions", "Conditions", "Actions"] :=
  ⟨(WhileEvent.SaveToXml_appends sampleCodec sampleCodec_roundTrips.names sampleEvent
      (TiXmlElement.mk "Event" [] [TiXmlElement.new "Type"])).2.2.2.1,
   (WhileEvent.SaveToXml_appends sampleCodec sampleCodec_roundTrips.names sampleLeafEvent
      (TiXmlElement.mk "Event" [] [TiXmlElement.new "Type"])).2.2.2.1⟩

/-! ### Code generation -/

/-- The text of `GenerateEventCode`, written with the five texts of its collaborators. -/
theorem WhileEvent.GenerateEventCode_text {Ev G C : Type}
    (cg : EventsCodeGenerator G C Ev) (e : WhileEvent Ev) (g : G) (pc : C) :
    (WhileEvent.GenerateEventCode cg e g pc).1 =
      "bool stopDoWhile = false;" ++ "do" ++ "\x7b\n"
        ++ (WhileEvent.generatedTexts cg e g pc).declarations
        ++ (WhileEvent.generatedTexts cg e g pc).whileConditions
        ++ "if (" ++ e.whileIfPredicat ++ ")\n\x7b\n"
        ++ (WhileEvent.generatedTexts cg e g pc).conditions
        ++ "if (" ++ e.ifPredicat ++ ")\n\x7b\n"
        ++ (WhileEvent.generatedTexts cg e g pc).actions
        ++ "\n\x7b //Subevents: \n"
        ++ (WhileEvent.generatedTexts cg e g pc).subEvents
        ++ "\x7d //Subevents end.\n" ++ "\x7d\n" ++ "\x7d else stopDoWhile = true; \n"
        ++ "\x7d while ( !stopDoWhile );\n" := by
  apply String.ext
  simp [WhileEvent.GenerateEventCode, WhileEvent.generatedTexts, String.data_append]

/-- C2. `GenerateEventCode` returns exactly the sentinel declaration, `do`, the opening
brace, the declarations, the while-conditions code, the test of the while-predicate, the
conditions code, the test of the guard predicate, the actions code, the sub-events block,
and the closing lines, in this order. -/
theorem WhileEvent.GenerateEventCode_eq {Ev G C : Type}
    (cg : EventsCodeGenerator G C Ev) (e : WhileEvent Ev) (g : G) (pc : C) :
    (WhileEvent.GenerateEventCode cg e g pc).1 =
      "bool stopDoWhile = false;" ++ "do" ++ "\x7b\n"
        ++ (WhileEvent.generatedTexts cg e g pc).declarations
        ++ (WhileEvent.generatedTexts cg e g pc).whileConditions
        ++ "if (" ++ e.whileIfPredicat ++ ")\n\x7b\n"
        ++ (WhileEvent.generatedTexts cg e g pc).conditions
        ++ "if (" ++ e.ifPredicat ++ ")\n\x7b\n"
        ++ (WhileEvent.generatedTexts cg e g pc).actions
        ++ "\n\x7b //Subevents: \n"
        ++ (WhileEvent.generatedTexts cg e g pc).subEvents
        ++ "\x7d //Subevents end.\n" ++ "\x7d\n" ++ "\x7d else stopDoWhile = true; \n"
        ++ "\x7d while ( !stopDoWhile );\n" :=
  WhileEvent.GenerateEventCode_text cg e g pc

/-- The characters of a text built by appending one piece per index. -/
theorem foldl_append_data (f : Nat → String) (l : List Nat) (init : String) :
    (l.foldl (fun acc i => acc ++ f i) init).data =
      init.data ++ (l.map (fun i => (f i).data)).flatten := by
  induction l generalizing init with
  | nil => simp
  | cons x xs ih => simp [ih, String.data_append, List.append_assoc]

theorem foldl_append_eq_join (f : Nat → String) (l : List Nat) (init : String) :
    l.foldl (fun acc i => acc ++ f i) init = init ++ String.join (l.map f) := by
  apply String.ext
  rw [foldl_append_data, String.data_append, String.join_eq]
  simp [List.map_map, Function.comp_def]

/-- C4. The while-predicate is `true` followed, for each index of `whileConditions` in
increasing order, by ` && condition<index>IsTrue`; the guard predicate is built the same way
from `conditions`; each references one flag per index of its list; an empty list gives
exactly `true`; the emitted tests are `if (` predicate `)`, and with the three lists empty
both tests are `if (true)`. -/
theorem WhileEvent.predicates_eq {Ev G C : Type}
    (cg : EventsCodeGenerator G C Ev) (e : WhileEvent Ev) (g : G) (pc : C) :
    e.whileIfPredicat =
      "true" ++ String.join ((List.range e.whileConditions.length).map
        (fun i => " && condition" ++ ToString i ++ "IsTrue")) ∧
    e.ifPredicat =
      "true" ++ String.join ((List.range e.conditions.length).map
        (fun i => " && condition" ++ ToString i ++ "IsTrue")) ∧
    ((List.range e.whileConditions.length).map
        (fun i => "condition" ++ ToString i ++ "IsTrue")).length = e.whileConditions.length ∧
    ((List.range e.conditions.length).map
        (fun i => "condition" ++ ToString i ++ "IsTrue")).length = e.conditions.length ∧
    (e.whileConditions = [] → e.whileIfPredicat = "true") ∧
    (e.conditions = [] → e.ifPredicat = "true") ∧
    (WhileEvent.GenerateEventCode cg e g pc).1 =
      "bool stopDoWhile = false;do\x7b\n"
        ++ (WhileEvent.generatedTexts cg e g pc).declarations
        ++ (WhileEvent.generatedTexts cg e g pc).whileConditions
        ++ ("if (" ++ e.whileIfPredicat ++ ")") ++ "\n\x7b\n"
        ++ (WhileEvent.generatedTexts cg e g pc).conditions
        ++ ("if (" ++ e.ifPredicat ++ ")") ++ "\n\x7b\n"
        ++ (WhileEvent.generatedTexts cg e g pc).actions
        ++ "\n\x7b //Subevents: \n"
        ++ (WhileEvent.generatedTexts cg e g pc).subEvents
        ++ "\x7d //Subevents end.\n\x7d\n\x7d else stopDoWhile = true; \n\x7d while ( !stopDoWhile );\n" ∧
    (e.whileConditions = [] → e.conditions = [] → e.actions = [] →
      (WhileEvent.GenerateEventCode cg e g pc).1 =
        "bool stopDoWhile = false;do\x7b\n"
          ++ (WhileEvent.generatedTexts cg e g pc).declarations
          ++ (WhileEvent.generatedTexts cg e g pc).whileConditions
          ++ "if (true)" ++ "\n\x7b\n"
          ++ (WhileEvent.generatedTexts cg e g pc).conditions
          ++ "if (true)" ++ "\n\x7b\n"
          ++ (WhileEvent.generatedTexts cg e g pc).actions
          ++ "\n\x7b //Subevents: \n"
          ++ (WhileEvent.generatedTexts cg e g pc).subEvents
          ++ "\x7d //Subevents end.\n\x7d\n\x7d else stopDoWhile = true; \n\x7d while ( !stopDoWhile );\n") := by
  have hw : e.whileIfPredicat =
      "true" ++ String.join ((List.range e.whileConditions.length).map
        (fun i => " && condition" ++ ToString i ++ "IsTrue")) :=
    foldl_append_eq_join _ _ _
  have hc : e.ifPredicat =
      "true" ++ String.join ((List.range e.conditions.length).map
        (fun i => " && condition" ++ ToString i ++ "IsTrue")) :=
    foldl_append_eq_join _ _ _
  have hw0 : e.whileConditions = [] → e.whileIfPredicat = "true" := by
    intro h
    simp [WhileEvent.whileIfPredicat, h]
  have hc0 : e.conditions = [] → e.ifPredicat = "true" := by
    intro h
    simp [WhileEvent.ifPredicat, h]
  have hcode := WhileEvent.GenerateEventCode_text cg e g pc
  refine ⟨hw, hc, by simp, by simp, hw0, hc0, ?_, ?_⟩
  · rw [hcode]
    apply String.ext
    simp [String.data_append]
  · intro h1 h2 _
    rw [hcode, hw0 h1, hc0 h2]
    apply String.ext
    simp [String.data_append]

/-- The predicates of the sample event, which has one while-condition and two conditions. -/
theorem WhileEvent.predicates_eq_witness :
    sampleEvent.whileIfPredicat = "true && condition0IsTrue" ∧
    sampleEvent.ifPredicat = "true && condition0IsTrue && condition1IsTrue" ∧
    sampleNewEvent.whileIfPredicat = "true" ∧ sampleNewEvent.ifPredicat = "true" :=
  have h := WhileEvent.predicates_eq sampleGenerator sampleEvent 0 0
  have h0 := WhileEvent.predicates_eq sampleGenerator sampleNewEvent 0 0
  ⟨h.1.trans (by decide), h.2.1.trans (by decide), h0.2.2.2.2.1 rfl, h0.2.2.2.2.2.1 rfl⟩

theorem braceDepth_append (a b : List Char) (d : Nat) :
    braceDepth (a ++ b) d = (braceDepth a d).bind (braceDepth b) := by
  induction a generalizing d with
  | nil => simp [braceDepth]
  | cons c cs ih =>
    simp only [List.cons_append, braceDepth]
    split
    · exact ih _
    · split
      · split
        · rfl
        · exact ih _
      · exact ih _

theorem braceDepth_add (a : List Char) (d r k : Nat) (h : braceDepth a d = some r) :
    braceDepth a (d + k) = some (r + k) := by
  induction a generalizing d with
  | nil =>
    simp only [braceDepth, Option.some.injEq] at h ⊢
    omega
  | cons c cs ih =>
    simp only [braceDepth] at h ⊢
    split
    · rename_i hc
      rw [if_pos hc] at h
      have := ih (d + 1) h
      rwa [Nat.add_right_comm] at this
    · rename_i hc
      rw [if_neg hc] at h
      split
      · rename_i hc2
        rw [if_pos hc2] at h
        by_cases hd : d = 0
        · rw [if_pos hd] at h
          exact absurd h (by simp)
        · rw [if_neg hd] at h
          have hdk : ¬ d + k = 0 := by omega
          rw [if_neg hdk]
          have := ih (d - 1) h
          have e : d - 1 + k = d + k - 1 := by omega
          rwa [e] at this
      · rename_i hc2
        rw [if_neg hc2] at h
        exact ih d h

theorem BraceBalanced.depth {s : String} (h : BraceBalanced s) (d : Nat) :
    braceDepth s.data d = some d := by
  have := braceDepth_add s.data 0 0 d h
  simpa using this

theorem plainChar_ne (c : Char) (h : plainChar c = true) :
    c ≠ '{' ∧ c ≠ '}' ∧ c ≠ '=' ∧ c ≠ '/' ∧ c ≠ Char.ofNat 34 ∧ c ≠ Char.ofNat 39 := by
  simp only [plainChar, Bool.and_eq_true, bne_iff_ne, ne_eq] at h
  exact ⟨h.1.1.1.1.1, h.1.1.1.1.2, h.1.1.1.2, h.1.1.2, h.1.2, h.2⟩

theorem braceDepth_plain (a : List Char) (d : Nat) (h : ∀ c ∈ a, plainChar c = true) :
    braceDepth a d = some d := by
  induction a generalizing d with
  | nil => rfl
  | cons c cs ih =>
    have hc := plainChar_ne c (h c (List.mem_cons_self _ _))
    simp only [braceDepth, if_neg hc.1, if_neg hc.2.1]
    exact ih d (fun x hx => h x (List.mem_cons_of_mem _ hx))

theorem count_assign_plain (a : List Char) (h : ∀ c ∈ a, plainChar c = true) :
    a.count '=' = 0 := by
  rw [List.count_eq_zero]
  intro hmem
  exact (plainChar_ne _ (h _ hmem)).2.2.1 rfl

theorem plainChar_digitChar : ∀ m, m < 10 → plainChar (Nat.digitChar m) = true := by
  decide

theorem plainChar_toDigitsCore (fuel n : Nat) (ds : List Char)
    (h : ∀ c ∈ ds, plainChar c = true) :
    ∀ c ∈ Nat.toDigitsCore 10 fuel n ds, plainChar c = true := by
  induction fuel generalizing n ds with
  | zero => simpa [Nat.toDigitsCore] using h
  | succ k ih =>
    have hcons : ∀ c ∈ Nat.digitChar (n % 10) :: ds, plainChar c = true := by
      intro c hc
      rcases List.mem_cons.1 hc with rfl | hc
      · exact plainChar_digitChar _ (Nat.mod_lt _ (by decide))
      · exact h c hc
    simp only [Nat.toDigitsCore]
    split
    · exact hcons
    · exact ih _ _ hcons

theorem plainChar_ToString (i : Nat) : ∀ c ∈ (ToString i).data, plainChar c = true := by
  simp only [ToString, Nat.repr, Nat.toDigits, List.asString]
  exact plainChar_toDigitsCore _ _ _ (by simp)

/-- No brace and no `=` in a predicate, whatever the number of conditions. -/
theorem plainChar_predicate (n : Nat) :
    ∀ c ∈ ((List.range n).foldl
      (fun acc i => acc ++ (" && condition" ++ ToString i ++ "IsTrue")) "true").data,
      plainChar c = true := by
  have h1 : ∀ c ∈ "true".data, plainChar c = true := by decide
  have h2 : ∀ c ∈ " && condition".data, plainChar c = true := by decide
  have h3 : ∀ c ∈ "IsTrue".data, plainChar c = true := by decide
  rw [foldl_append_data]
  intro c hc
  rcases List.mem_append.1 hc with hc | hc
  · exact h1 c hc
  · rcases List.mem_flatten.1 hc with ⟨l, hl, hcl⟩
    rcases List.mem_map.1 hl with ⟨i, _, rfl⟩
    simp only [String.data_append, List.mem_append] at hcl
    rcases hcl with (hcl | hcl) | hcl
    · exact h2 c hcl
    · exact plainChar_ToString i c hcl
    · exact h3 c hcl

/-- The braces of a test `if (` predicate `)` and its `=` characters: none. -/
theorem plainChar_test (n : Nat) :
    ∀ c ∈ ("if (" ++ (List.range n).foldl
      (fun acc i => acc ++ (" && condition" ++ ToString i ++ "IsTrue")) "true" ++ ")\n").data,
      plainChar c = true := by
  have h1 : ∀ c ∈ "if (".data, plainChar c = true := by decide
  have h2 : ∀ c ∈ ")\n".data, plainChar c = true := by decide
  intro c hc
  simp only [String.data_append, List.mem_append] at hc
  rcases hc with (hc | hc) | hc
  · exact h1 c hc
  · exact plainChar_predicate n c hc
  · exact h2 c hc

/-- The braces of the generated fragment, counted as characters. With texts from the
generator in which the brace characters pair up, the brace characters of the fragment pair
up; the fragment is the header, the test of the while-predicate, a block, and
` else stopDoWhile = true;` right after that block; the block of the while test holds the
conditions code, the test of the guard predicate and the block of the guard; the block of
the guard holds the actions code and then the sub-events block. The event itself writes two
`=`: the initial value of `stopDoWhile` and the one assignment after `else`. -/
theorem WhileEvent.GenerateEventCode_braces {Ev G C : Type}
    (cg : EventsCodeGenerator G C Ev) (e : WhileEvent Ev) (g : G) (pc : C)
    (hD : BraceBalanced (WhileEvent.generatedTexts cg e g pc).declarations)
    (hW : BraceBalanced (WhileEvent.generatedTexts cg e g pc).whileConditions)
    (hC : BraceBalanced (WhileEvent.generatedTexts cg e g pc).conditions)
    (hA : BraceBalanced (WhileEvent.generatedTexts cg e g pc).actions)
    (hS : BraceBalanced (WhileEvent.generatedTexts cg e g pc).subEvents) :
    BraceBalanced (WhileEvent.GenerateEventCode cg e g pc).1 ∧
    (∃ header whileBlock guardBlock : String,
      header = "bool stopDoWhile = false;do\x7b\n"
        ++ (WhileEvent.generatedTexts cg e g pc).declarations
        ++ (WhileEvent.generatedTexts cg e g pc).whileConditions ∧
      guardBlock = "\n" ++ (WhileEvent.generatedTexts cg e g pc).actions
        ++ "\n\x7b //Subevents: \n" ++ (WhileEvent.generatedTexts cg e g pc).subEvents
        ++ "\x7d //Subevents end.\n" ∧
      whileBlock = "\n" ++ (WhileEvent.generatedTexts cg e g pc).conditions
        ++ ("if (" ++ e.ifPredicat ++ ")\n") ++ "\x7b" ++ guardBlock ++ "\x7d" ++ "\n" ∧
      (WhileEvent.GenerateEventCode cg e g pc).1 =
        header ++ ("if (" ++ e.whileIfPredicat ++ ")\n") ++ "\x7b" ++ whileBlock ++ "\x7d"
          ++ " else stopDoWhile = true; \n" ++ "\x7d while ( !stopDoWhile );\n" ∧
      BraceBalanced whileBlock ∧ BraceBalanced guardBlock ∧
      braceDepth (header ++ ("if (" ++ e.whileIfPredicat ++ ")\n") ++ "\x7b").data 0 = some 2 ∧
      braceDepth (header ++ ("if (" ++ e.whileIfPredicat ++ ")\n") ++ "\x7b" ++ "\n"
        ++ (WhileEvent.generatedTexts cg e g pc).conditions
        ++ ("if (" ++ e.ifPredicat ++ ")\n") ++ "\x7b").data 0 = some 3) ∧
    countAssign (WhileEvent.GenerateEventCode cg e g pc).1 =
      2 + countAssign (WhileEvent.generatedTexts cg e g pc).declarations
        + countAssign (WhileEvent.generatedTexts cg e g pc).whileConditions
        + countAssign (WhileEvent.generatedTexts cg e g pc).conditions
        + countAssign (WhileEvent.generatedTexts cg e g pc).actions
        + countAssign (WhileEvent.generatedTexts cg e g pc).subEvents ∧
    countAssign "bool stopDoWhile = false;do\x7b\n" = 1 ∧
    countAssign " else stopDoWhile = true; \n" = 1 := by
  have hcode := WhileEvent.GenerateEventCode_text cg e g pc
  have tw := plainChar_test e.whileConditions.length
  have tg := plainChar_test e.conditions.length
  have dw : ∀ d, braceDepth ("if (" ++ e.whileIfPredicat ++ ")\n").data d = some d :=
    fun d => braceDepth_plain _ d tw
  have dg : ∀ d, braceDepth ("if (" ++ e.ifPredicat ++ ")\n").data d = some d :=
    fun d => braceDepth_plain _ d tg
  have cw : ("if (" ++ e.whileIfPredicat ++ ")\n").data.count '=' = 0 :=
    count_assign_plain _ tw
  have cg0 : ("if (" ++ e.ifPredicat ++ ")\n").data.count '=' = 0 :=
    count_assign_plain _ tg
  have l0 : braceDepth "bool stopDoWhile = false;do\x7b\n".data 0 = some 1 := by decide
  have l1 : braceDepth "\x7b".data 1 = some 2 := by decide
  have l2 : braceDepth "\x7b".data 2 = some 3 := by decide
  have l3 : braceDepth "\n\x7b //Subevents: \n".data 0 = some 1 := by decide
  have l4 : braceDepth "\x7d //Subevents end.\n".data 1 = some 0 := by decide
  have l5 : braceDepth "\x7b".data 0 = some 1 := by decide
  have l6 : braceDepth "\x7d".data 1 = some 0 := by decide
  have l7 : ∀ d, braceDepth "\n".data d = some d := fun d => rfl
  have l8 : braceDepth " else stopDoWhile = true; \n".data 1 = some 1 := by decide
  have l9 : braceDepth "\x7d while ( !stopDoWhile );\n".data 1 = some 0 := by decide
  have l10 : braceDepth "\x7d".data 2 = some 1 := by decide
  have hgb : BraceBalanced ("\n" ++ (WhileEvent.generatedTexts cg e g pc).actions
        ++ "\n\x7b //Subevents: \n" ++ (WhileEvent.generatedTexts cg e g pc).subEvents
        ++ "\x7d //Subevents end.\n") := by
    simp only [BraceBalanced, String.data_append, braceDepth_append, l7, hA.depth, l3, hS.depth,
      l4, Option.bind_eq_bind, Option.some_bind]
  have hwb : BraceBalanced ("\n" ++ (WhileEvent.generatedTexts cg e g pc).conditions
        ++ ("if (" ++ e.ifPredicat ++ ")\n") ++ "\x7b"
        ++ ("\n" ++ (WhileEvent.generatedTexts cg e g pc).actions
          ++ "\n\x7b //Subevents: \n" ++ (WhileEvent.generatedTexts cg e g pc).subEvents
          ++ "\x7d //Subevents end.\n") ++ "\x7d" ++ "\n") := by
    unfold BraceBalanced
    rw [String.data_append, String.data_append, String.data_append, String.data_append,
      String.data_append, String.data_append]
    simp only [braceDepth_append, l7, hC.depth, dg, l5, hgb.depth, l6,
      Option.bind_eq_bind, Option.some_bind]
  have hshape : (WhileEvent.GenerateEventCode cg e g pc).1 =
      "bool stopDoWhile = false;do\x7b\n"
        ++ (WhileEvent.generatedTexts cg e g pc).declarations
        ++ (WhileEvent.generatedTexts cg e g pc).whileConditions
        ++ ("if (" ++ e.whileIfPredicat ++ ")\n") ++ "\x7b"
        ++ ("\n" ++ (WhileEvent.generatedTexts cg e g pc).conditions
          ++ ("if (" ++ e.ifPredicat ++ ")\n") ++ "\x7b"
          ++ ("\n" ++ (WhileEvent.generatedTexts cg e g pc).actions
            ++ "\n\x7b //Subevents: \n" ++ (WhileEvent.generatedTexts cg e g pc).subEvents
            ++ "\x7d //Subevents end.\n") ++ "\x7d" ++ "\n") ++ "\x7d"
        ++ " else stopDoWhile = true; \n" ++ "\x7d while ( !stopDoWhile );\n" := by
    rw [hcode]
    apply String.ext
    simp [String.data_append]
  have hhead : braceDepth ("bool stopDoWhile = false;do\x7b\n"
        ++ (WhileEvent.generatedTexts cg e g pc).declarations
        ++ (WhileEvent.generatedTexts cg e g pc).whileConditions
        ++ ("if (" ++ e.whileIfPredicat ++ ")\n") ++ "\x7b").data 0 = some 2 := by
    rw [String.data_append, String.data_append, String.data_append, String.data_append]
    simp only [braceDepth_append, l0, hD.depth, hW.depth, dw, l1,
      Option.bind_eq_bind, Option.some_bind]
  refine ⟨?_, ⟨_, _, _, rfl, rfl, rfl, hshape, hwb, hgb, hhead, ?_⟩, ?_, by decide, by decide⟩
  · rw [hshape]
    unfold BraceBalanced
    rw [String.data_append, String.data_append, String.data_append, String.data_append,
      braceDepth_append, braceDepth_append, braceDepth_append, braceDepth_append, hhead]
    simp only [hwb.depth, l10, l8, l9, Option.bind_eq_bind, Option.some_bind]
  · rw [String.data_append, String.data_append, String.data_append, String.data_append,
      braceDepth_append, braceDepth_append, braceDepth_append, braceDepth_append, hhead]
    simp only [l7, hC.depth, dg, l2, Option.bind_eq_bind, Option.some_bind]
  · rw [hshape]
    have c0 : "bool stopDoWhile = false;do\x7b\n".data.count '=' = 1 := by decide
    have c1 : "\x7b".data.count '=' = 0 := by decide
    have c2 : "\n".data.count '=' = 0 := by decide
    have c3 : "\n\x7b //Subevents: \n".data.count '=' = 0 := by decide
    have c4 : "\x7d //Subevents end.\n".data.count '=' = 0 := by decide
    have c5 : "\x7d".data.count '=' = 0 := by decide
    have c6 : " else stopDoWhile = true; \n".data.count '=' = 1 := by decide
    have c7 : "\x7d while ( !stopDoWhile );\n".data.count '=' = 0 := by decide
    simp only [String.data_append, List.count_append] at cw cg0
    simp only [countAssign, String.data_append, List.count_append, c0, c1, c2, c3, c4,
      c5, c6, c7]
    omega

/-! ### Rendered height -/

theorem toUnsigned_of_inRange (x : Int) (h0 : 0 ≤ x) (h1 : x < 4294967296) :
    (toUnsigned x : Int) = x := by
  unfold toUnsigned
  rw [Int.emod_eq_of_lt h0 h1]
  exact Int.toNat_of_nonneg h0

/-- A call on an event whose flag is clear returns the cached value and changes nothing. -/
theorem WhileEvent.GetRenderedHeight_clean {Ev : Type} (h : EventsRenderingHelper)
    (e : WhileEvent Ev) (width : Nat) (hc : e.eventHeightNeedUpdate = false) :
    WhileEvent.GetRenderedHeight h e width = (e.renderedHeight, e) := by
  simp [WhileEvent.GetRenderedHeight, hc]

/-- After any call the flag is clear and the cache holds the value returned. -/
theorem WhileEvent.GetRenderedHeight_after {Ev : Type} (h : EventsRenderingHelper)
    (e : WhileEvent Ev) (width : Nat) :
    (WhileEvent.GetRenderedHeight h e width).2.eventHeightNeedUpdate = false ∧
    (WhileEvent.GetRenderedHeight h e width).2.renderedHeight
      = (WhileEvent.GetRenderedHeight h e width).1 ∧
    (WhileEvent.GetRenderedHeight h e width).2.whileConditions = e.whileConditions ∧
    (WhileEvent.GetRenderedHeight h e width).2.conditions = e.conditions ∧
    (WhileEvent.GetRenderedHeight h e width).2.actions = e.actions ∧
    (WhileEvent.GetRenderedHeight h e width).2.events = e.events := by
  cases hf : e.eventHeightNeedUpdate <;> simp [WhileEvent.GetRenderedHeight, hf]

/-- Two events with their flag set and the same instruction lists get the same height. -/
theorem WhileEvent.GetRenderedHeight_congr {Ev : Type} (h : EventsRenderingHelper)
    (a b : WhileEvent Ev) (w : Nat)
    (ha : a.eventHeightNeedUpdate = true) (hb : b.eventHeightNeedUpdate = true)
    (h1 : a.whileConditions = b.whileConditions) (h2 : a.conditions = b.conditions)
    (h3 : a.actions = b.actions) :
    (WhileEvent.GetRenderedHeight h a w).1 = (WhileEvent.GetRenderedHeight h b w).1 := by
  simp only [WhileEvent.GetRenderedHeight, ha, hb, if_true, h1, h2, h3]

/-- C8, as stated, fails: the right column is measured on the actions alone. The sample
event with one action measures 76 at width 800 with one sub-event as well as with none,
where the height worded by the specification, with 18 pixels for a sub-event, is 94. -/
theorem WhileEvent.GetRenderedHeight_ignores_subEvents :
    (WhileEvent.GetRenderedHeight sampleHelper
      { sampleLeafEvent with events := ["Standard"] } 800).1 = 76 ∧
    (WhileEvent.GetRenderedHeight sampleHelper sampleLeafEvent 800).1 = 76 ∧
    WhileEvent.heightWithSubEvents sampleHelper (fun evs _ => 18 * evs.length)
      { sampleLeafEvent with events := ["Standard"] } 800 = 94 ∧
    ((WhileEvent.GetRenderedHeight sampleHelper
      { sampleLeafEvent with events := ["Standard"] } 800).1 : Int) ≠
    WhileEvent.heightWithSubEvents sampleHelper (fun evs _ => 18 * evs.length)
      { sampleLeafEvent with events := ["Standard"] } 800 := by
  decide

/-- C8, amended. On an event whose flag is set, `GetRenderedHeight(width)` returns, as an
`unsigned int`, the sum of the height of the while-conditions measured at
`width-80-2*border`, the band of 20, the larger of the height of the conditions measured at
`conditionsColumnWidth-border` and of the actions list alone measured at
`width-conditionsColumnWidth-2*border`, and `2*border` twice; the value is that sum itself
when the sum fits an `unsigned int`; the value is stored in `renderedHeight`, the flag is
cleared and the lists are not changed. The sub-events are not measured: the value is the
same whatever the sub-events of the event are. -/
theorem WhileEvent.GetRenderedHeight_dirty {Ev : Type} (h : EventsRenderingHelper)
    (e : WhileEvent Ev) (width : Nat) (hd : e.eventHeightNeedUpdate = true) :
    (WhileEvent.GetRenderedHeight h e width).1 =
      toUnsigned
        (h.GetRenderedConditionsListHeight e.whileConditions
            (toUnsigned (width - 80 - 2 * h.instructionsListBorder))
          + 20
          + max (h.GetRenderedConditionsListHeight e.conditions
                  (toUnsigned (h.GetConditionsColumnWidth - h.instructionsListBorder)))
                (h.GetRenderedActionsListHeight e.actions
                  (toUnsigned (width - h.GetConditionsColumnWidth
                    - 2 * h.instructionsListBorder)))
          + 2 * h.instructionsListBorder + 2 * h.instructionsListBorder) ∧
    (0 ≤ h.GetRenderedConditionsListHeight e.whileConditions
            (toUnsigned (width - 80 - 2 * h.instructionsListBorder))
          + 20
          + max (h.GetRenderedConditionsListHeight e.conditions
                  (toUnsigned (h.GetConditionsColumnWidth - h.instructionsListBorder)))
                (h.GetRenderedActionsListHeight e.actions
                  (toUnsigned (width - h.GetConditionsColumnWidth
                    - 2 * h.instructionsListBorder)))
          + 2 * h.instructionsListBorder + 2 * h.instructionsListBorder →
     h.GetRenderedConditionsListHeight e.whileConditions
            (toUnsigned (width - 80 - 2 * h.instructionsListBorder))
          + 20
          + max (h.GetRenderedConditionsListHeight e.conditions
                  (toUnsigned (h.GetConditionsColumnWidth - h.instructionsListBorder)))
                (h.GetRenderedActionsListHeight e.actions
                  (toUnsigned (width - h.GetConditionsColumnWidth
                    - 2 * h.instructionsListBorder)))
          + 2 * h.instructionsListBorder + 2 * h.instructionsListBorder < 4294967296 →
     ((WhileEvent.GetRenderedHeight h e width).1 : Int) =
        h.GetRenderedConditionsListHeight e.whileConditions
            (toUnsigned (width - 80 - 2 * h.instructionsListBorder))
          + 20
          + max (h.GetRenderedConditionsListHeight e.conditions
                  (toUnsigned (h.GetConditionsColumnWidth - h.instructionsListBorder)))
                (h.GetRenderedActionsListHeight e.actions
                  (toUnsigned (width - h.GetConditionsColumnWidth
                    - 2 * h.instructionsListBorder)))
          + 2 * h.instructionsListBorder + 2 * h.instructionsListBorder) ∧
    (WhileEvent.GetRenderedHeight h e width).2.renderedHeight
      = (WhileEvent.GetRenderedHeight h e width).1 ∧
    (WhileEvent.GetRenderedHeight h e width).2.eventHeightNeedUpdate = false ∧
    (WhileEvent.GetRenderedHeight h e width).2.whileConditions = e.whileConditions ∧
    (WhileEvent.GetRenderedHeight h e width).2.conditions = e.conditions ∧
    (WhileEvent.GetRenderedHeight h e width).2.actions = e.actions ∧
    (WhileEvent.GetRenderedHeight h e width).2.events = e.events ∧
    (∀ events : List Ev,
      (WhileEvent.GetRenderedHeight h { e with events := events } width).1
        = (WhileEvent.GetRenderedHeight h e width).1) := by
  have hval : (WhileEvent.GetRenderedHeight h e width).1 =
      toUnsigned
        (h.GetRenderedConditionsListHeight e.whileConditions
            (toUnsigned (width - 80 - 2 * h.instructionsListBorder))
          + 20
          + max (h.GetRenderedConditionsListHeight e.conditions
                  (toUnsigned (h.GetConditionsColumnWidth - h.instructionsListBorder)))
                (h.GetRenderedActionsListHeight e.actions
                  (toUnsigned (width - h.GetConditionsColumnWidth
                    - 2 * h.instructionsListBorder)))
          + 2 * h.instructionsListBorder + 2 * h.instructionsListBorder) := by
    simp only [WhileEvent.GetRenderedHeight, hd, if_true]
    congr 1
    rw [mul_comm h.instructionsListBorder 2]
    by_cases hgt : h.GetRenderedConditionsListHeight e.conditions
          (toUnsigned (h.GetConditionsColumnWidth - h.instructionsListBorder))
        > h.GetRenderedActionsListHeight e.actions
          (toUnsigned (width - h.GetConditionsColumnWidth - 2 * h.instructionsListBorder))
    · rw [if_pos hgt, max_eq_left (le_of_lt hgt)]
      ring
    · rw [if_neg hgt, max_eq_right (not_lt.1 hgt)]
      ring
  have hafter := WhileEvent.GetRenderedHeight_after h e width
  refine ⟨hval, ?_, hafter.2.1, hafter.1, hafter.2.2.1, hafter.2.2.2.1, hafter.2.2.2.2.1,
    hafter.2.2.2.2.2, ?_⟩
  · intro h0 h1
    rw [hval]
    exact toUnsigned_of_inRange _ h0 h1
  · intro events
    exact WhileEvent.GetRenderedHeight_congr h _ _ width hd hd rfl rfl rfl

/-- The height of the sample event without sub-events at width 800: 18 for the
while-condition, 20, 18 for the action, and four borders of 5. -/
theorem WhileEvent.GetRenderedHeight_dirty_witness :
    ((WhileEvent.GetRenderedHeight sampleHelper sampleLeafEvent 800).1 : Int) = 18 + 20 + 18 + 20 ∧
    (WhileEvent.GetRenderedHeight sampleHelper sampleLeafEvent 800).2.renderedHeight = 76 ∧
    (WhileEvent.GetRenderedHeight sampleHelper sampleLeafEvent 800).2.eventHeightNeedUpdate
      = false :=
  have h := WhileEvent.GetRenderedHeight_dirty sampleHelper sampleLeafEvent 800 rfl
  ⟨(h.2.1 (by decide) (by decide)).trans (by decide), h.2.2.1.trans (by decide), h.2.2.2.1⟩

/-- C9, as stated, fails: the sample event measures 112 at width 300 and 76 at width 800,
and a call at width 800 right after a call at width 300 still returns 112. -/
theorem WhileEvent.GetRenderedHeight_other_width_stale :
    (300 : Nat) ≠ 800 ∧
    (WhileEvent.GetRenderedHeight sampleHelper sampleLeafEvent 300).1 = 112 ∧
    (WhileEvent.GetRenderedHeight sampleHelper
      (WhileEvent.GetRenderedHeight sampleHelper sampleLeafEvent 300).2 800).1 = 112 ∧
    (WhileEvent.GetRenderedHeight sampleHelper
      { sampleLeafEvent with eventHeightNeedUpdate := true } 800).1 = 76 ∧
    (WhileEvent.GetRenderedHeight sampleHelper
      (WhileEvent.GetRenderedHeight sampleHelper sampleLeafEvent 300).2 800).1 ≠
    (WhileEvent.GetRenderedHeight sampleHelper
      { sampleLeafEvent with eventHeightNeedUpdate := true } 800).1 := by
  decide

/-- C9, amended. The cache is keyed by the flag alone: a call at width `w2` that follows a
call at width `w1` with nothing in between returns the value the first call returned and
changes nothing; the height for `w2` (the value an event with its flag set computes for
`w2`) is returned when the flag has been set again between the two calls. -/
theorem WhileEvent.GetRenderedHeight_other_width {Ev : Type} (h : EventsRenderingHelper)
    (e : WhileEvent Ev) (w1 w2 : Nat) :
    (WhileEvent.GetRenderedHeight h (WhileEvent.GetRenderedHeight h e w1).2 w2).1
      = (WhileEvent.GetRenderedHeight h e w1).1 ∧
    (WhileEvent.GetRenderedHeight h (WhileEvent.GetRenderedHeight h e w1).2 w2).2
      = (WhileEvent.GetRenderedHeight h e w1).2 ∧
    (WhileEvent.GetRenderedHeight h
      { (WhileEvent.GetRenderedHeight h e w1).2 with eventHeightNeedUpdate := true } w2).1
      = (WhileEvent.GetRenderedHeight h { e with eventHeightNeedUpdate := true } w2).1 := by
  have ha := WhileEvent.GetRenderedHeight_after h e w1
  have hc := WhileEvent.GetRenderedHeight_clean h (WhileEvent.GetRenderedHeight h e w1).2 w2 ha.1
  refine ⟨?_, ?_, ?_⟩
  · rw [hc]
    exact ha.2.1
  · rw [hc]
  · exact WhileEvent.GetRenderedHeight_congr h _ _ w2 rfl rfl ha.2.2.1 ha.2.2.2.1 ha.2.2.2.2.1

/-- The lists an event with a written list holds. -/
theorem WhileEvent.read_write {Ev : Type} (e : WhileEvent Ev) (p : InstructionsVectorPtr)
    (l : List Instruction) :
    (e.write p l).read p = l ∧
    (∀ q, q ≠ p → (e.write p l).read q = e.read q) ∧
    (e.write p l).events = e.events ∧
    (e.write p l).renderedHeight = e.renderedHeight ∧
    (e.write p l).eventHeightNeedUpdate = e.eventHeightNeedUpdate := by
  cases p
  · exact ⟨rfl, fun q hq => by cases q <;> first | rfl | exact absurd rfl hq, rfl, rfl, rfl⟩
  · exact ⟨rfl, fun q hq => by cases q <;> first | rfl | exact absurd rfl hq, rfl, rfl, rfl⟩
  · exact ⟨rfl, fun q hq => by cases q <;> first | rfl | exact absurd rfl hq, rfl, rfl, rfl⟩

/-- C10, as stated, fails: after a call at width 800 returned 76, an action is appended
through the pointer of `GetAllActionsVectors`; the new content measures 94 at width 800, and
the next call at width 800 still returns 76. -/
theorem WhileEvent.GetRenderedHeight_after_mutation_stale :
    WhileEvent.GetAllActionsVectors sampleLeafEvent = [InstructionsVectorPtr.actions] ∧
    (WhileEvent.GetRenderedHeight sampleHelper sampleLeafEvent 800).1 = 76 ∧
    (WhileEvent.GetRenderedHeight sampleHelper
      ((WhileEvent.GetRenderedHeight sampleHelper sampleLeafEvent 800).2.write
        InstructionsVectorPtr.actions
        (sampleLeafEvent.actions ++ [⟨"Quit", []⟩])) 800).1 = 76 ∧
    (WhileEvent.GetRenderedHeight sampleHelper
      { sampleLeafEvent.write InstructionsVectorPtr.actions
          (sampleLeafEvent.actions ++ [⟨"Quit", []⟩]) with eventHeightNeedUpdate := true }
      800).1 = 94 := by
  decide

/-- C10, amended. A change of an owned list through a pointer returned by
`GetAllConditionsVectors` or `GetAllActionsVectors` is visible at once in the event, but it
does not touch the height cache: the next `GetRenderedHeight(w)` returns the value cached
before the change. The height of the new content is returned once the flag
`eventHeightNeedUpdate` has been set after the change. -/
theorem WhileEvent.GetRenderedHeight_after_mutation {Ev : Type} (h : EventsRenderingHelper)
    (e : WhileEvent Ev) (w : Nat) (p : InstructionsVectorPtr) (l : List Instruction)
    (hp : p ∈ WhileEvent.GetAllConditionsVectors e ++ WhileEvent.GetAllActionsVectors e) :
    ((WhileEvent.GetRenderedHeight h e w).2.write p l).read p = l ∧
    (WhileEvent.GetRenderedHeight h ((WhileEvent.GetRenderedHeight h e w).2.write p l) w).1
      = (WhileEvent.GetRenderedHeight h e w).1 ∧
    (WhileEvent.GetRenderedHeight h
      { (WhileEvent.GetRenderedHeight h e w).2.write p l with eventHeightNeedUpdate := true } w).1
      = (WhileEvent.GetRenderedHeight h
          { e.write p l with eventHeightNeedUpdate := true } w).1 := by
  have ha := WhileEvent.GetRenderedHeight_after h e w
  have hw := WhileEvent.read_write (WhileEvent.GetRenderedHeight h e w).2 p l
  have hc := WhileEvent.GetRenderedHeight_clean h
    ((WhileEvent.GetRenderedHeight h e w).2.write p l) w (hw.2.2.2.2.trans ha.1)
  refine ⟨hw.1, ?_, ?_⟩
  · rw [hc]
    exact hw.2.2.2.1.trans ha.2.1
  · apply WhileEvent.GetRenderedHeight_congr h _ _ w rfl rfl
    · cases p <;> first | rfl | exact ha.2.2.1
    · cases p <;> first | rfl | exact ha.2.2.2.1
    · cases p <;> first | rfl | exact ha.2.2.2.2.1

/-- The amended statement at the sample event, an action appended through the pointer of
`GetAllActionsVectors`: 76 is returned until the flag is set, then 94. -/
theorem WhileEvent.GetRenderedHeight_after_mutation_witness :
    (WhileEvent.GetRenderedHeight sampleHelper
      ((WhileEvent.GetRenderedHeight sampleHelper sampleLeafEvent 800).2.write
        InstructionsVectorPtr.actions
        (sampleLeafEvent.actions ++ [⟨"Quit", []⟩])) 800).1 = 76 ∧
    (WhileEvent.GetRenderedHeight sampleHelper
      { (WhileEvent.GetRenderedHeight sampleHelper sampleLeafEvent 800).2.write
          InstructionsVectorPtr.actions (sampleLeafEvent.actions ++ [⟨"Quit", []⟩])
        with eventHeightNeedUpdate := true } 800).1 = 94 := by
  have h := WhileEvent.GetRenderedHeight_after_mutation sampleHelper sampleLeafEvent 800
    InstructionsVectorPtr.actions (sampleLeafEvent.actions ++ [⟨"Quit", []⟩]) (by decide)
  refine ⟨?_, ?_⟩
  · exact h.2.1.trans (by decide)
  · exact h.2.2.trans (by decide)

/-! ### Copy -/

theorem contentList_congr (f g : BaseEventSPtr → Option EventContent) (as : List BaseEventSPtr)
    (h : ∀ a ∈ as, f a = g a) : contentList f as = contentList g as := by
  induction as with
  | nil => rfl
  | cons a rest ih =>
    have h1 := h a (List.mem_cons_self _ _)
    have h2 := ih (fun b hb => h b (List.mem_cons_of_mem _ hb))
    simp only [contentList, h1, h2]

theorem contentList_cons_some (f : BaseEventSPtr → Option EventContent) (a : BaseEventSPtr)
    (rest : List BaseEventSPtr) (ts : List EventContent)
    (h : contentList f (a :: rest) = some ts) :
    ∃ t ts', f a = some t ∧ contentList f rest = some ts' ∧ ts = t :: ts' := by
  simp only [contentList] at h
  cases hfa : f a with
  | none => simp [hfa] at h
  | some t =>
    cases hr : contentList f rest with
    | none => simp [hfa, hr] at h
    | some ts' =>
      simp only [hfa, hr, Option.some.injEq] at h
      exact ⟨t, ts', rfl, rfl, h.symm⟩

theorem contentList_some_mem (f : BaseEventSPtr → Option EventContent)
    (as : List BaseEventSPtr) (ts : List EventContent) (h : contentList f as = some ts) :
    ∀ a ∈ as, ∃ t, f a = some t := by
  induction as generalizing ts with
  | nil => intro a ha; cases ha
  | cons b rest ih =>
    obtain ⟨t, ts', hb, hrest, _⟩ := contentList_cons_some f b rest ts h
    intro a ha
    rcases List.mem_cons.1 ha with rfl | ha
    · exact ⟨t, hb⟩
    · exact ih ts' hrest a ha

theorem owned_succ_some (fuel : Nat) (store : EventsStore) (a : BaseEventSPtr)
    (obj : WhileEvent BaseEventSPtr) (h : store[a]? = some obj) :
    owned (fuel + 1) store a = a :: obj.events.flatMap (owned fuel store) := by
  simp only [owned, h]

theorem content_succ_some (fuel : Nat) (store : EventsStore) (a : BaseEventSPtr)
    (obj : WhileEvent BaseEventSPtr) (h : store[a]? = some obj) :
    content (fuel + 1) store a =
      match contentList (content fuel store) obj.events with
      | none => none
      | some kids =>
        some (EventContent.mk obj.whileConditions obj.conditions obj.actions kids) := by
  simp only [content, h]

theorem mem_owned_self (fuel : Nat) (store : EventsStore) (a : BaseEventSPtr) :
    a ∈ owned fuel store a := by
  cases fuel <;> simp [owned]

/-- The content and the objects of a tree depend on the objects of the tree alone. -/
theorem content_owned_frame (fuel : Nat) (store store2 : EventsStore) (a : BaseEventSPtr)
    (h : ∀ x ∈ owned fuel store a, store2[x]? = store[x]?) :
    content fuel store2 a = content fuel store a ∧ owned fuel store2 a = owned fuel store a := by
  induction fuel generalizing a with
  | zero => exact ⟨rfl, rfl⟩
  | succ k ih =>
    have ha : store2[a]? = store[a]? := h a (mem_owned_self _ _ _)
    cases hobj : store[a]? with
    | none =>
      rw [hobj] at ha
      simp only [content, owned, ha, hobj, and_self]
    | some obj =>
      rw [hobj] at ha
      have hkids : ∀ b ∈ obj.events,
          content k store2 b = content k store b ∧ owned k store2 b = owned k store b := by
        intro b hb
        apply ih
        intro x hx
        apply h
        rw [owned_succ_some k store a obj hobj]
        exact List.mem_cons_of_mem _ (List.mem_flatMap.2 ⟨b, hb, hx⟩)
      rw [content_succ_some k store a obj hobj, content_succ_some k store2 a obj ha,
        owned_succ_some k store a obj hobj, owned_succ_some k store2 a obj ha,
        contentList_congr _ _ _ (fun b hb => (hkids b hb).1)]
      refine ⟨rfl, ?_⟩
      congr 1
      simp only [List.flatMap]
      congr 1
      exact List.map_congr_left (fun b hb => (hkids b hb).2)

theorem content_succ_inv (fuel : Nat) (store : EventsStore) (a : BaseEventSPtr)
    (t : EventContent) (h : content (fuel + 1) store a = some t) :
    ∃ obj kids, store[a]? = some obj ∧
      contentList (content fuel store) obj.events = some kids ∧
      t = EventContent.mk obj.whileConditions obj.conditions obj.actions kids := by
  cases hobj : store[a]? with
  | none => simp [content, hobj] at h
  | some obj =>
    rw [content_succ_some fuel store a obj hobj] at h
    cases hk : contentList (content fuel store) obj.events with
    | none => simp [hk] at h
    | some kids =>
      simp only [hk, Option.some.injEq] at h
      exact ⟨obj, kids, rfl, hk, h.symm⟩

/-- Every object of a tree that has a content is in the store. -/
theorem owned_lt_of_content (fuel : Nat) (store : EventsStore) (a : BaseEventSPtr)
    (t : EventContent) (h : content fuel store a = some t) :
    ∀ x ∈ owned fuel store a, x < store.length := by
  induction fuel generalizing a t with
  | zero => simp [content] at h
  | succ k ih =>
    obtain ⟨obj, kids, hobj, hkids, _⟩ := content_succ_inv k store a t h
    intro x hx
    rw [owned_succ_some k store a obj hobj] at hx
    rcases List.mem_cons.1 hx with rfl | hx
    · exact (List.getElem?_eq_some.1 hobj).1
    · obtain ⟨b, hb, hxb⟩ := List.mem_flatMap.1 hx
      obtain ⟨tb, htb⟩ := contentList_some_mem _ _ _ hkids b hb
      exact ih b tb htb x hxb

/-- Objects added at the end of the store change no tree that had a content. -/
theorem content_append (fuel : Nat) (store ext : EventsStore) (a : BaseEventSPtr)
    (t : EventContent) (h : content fuel store a = some t) :
    content fuel (store ++ ext) a = some t ∧
    owned fuel (store ++ ext) a = owned fuel store a := by
  have hf := content_owned_frame fuel store (store ++ ext) a (fun x hx =>
    List.getElem?_append_left (owned_lt_of_content fuel store a t h x hx))
  exact ⟨hf.1.trans h, hf.2⟩

theorem contentList_append (fuel : Nat) (store ext : EventsStore) (as : List BaseEventSPtr)
    (ts : List EventContent) (h : contentList (content fuel store) as = some ts) :
    contentList (content fuel (store ++ ext)) as = some ts ∧
    ∀ a ∈ as, owned fuel (store ++ ext) a = owned fuel store a := by
  have hall : ∀ a ∈ as, content fuel (store ++ ext) a = content fuel store a ∧
      owned fuel (store ++ ext) a = owned fuel store a := by
    intro a ha
    obtain ⟨t, ht⟩ := contentList_some_mem _ _ _ h a ha
    have := content_append fuel store ext a t ht
    exact ⟨this.1.trans ht.symm, this.2⟩
  exact ⟨(contentList_congr _ _ _ (fun a ha => (hall a ha).1)).trans h,
    fun a ha => (hall a ha).2⟩

/-- Cloning a vector of events, given that cloning one event is right: the clones are new
objects, in the order of the originals, with the contents of the originals. -/
theorem CloneVectorOfEvents_spec (fuel : Nat)
    (ih : ∀ store a t, content fuel store a = some t →
      ∃ c store', WhileEvent.copyConstructor fuel store a = some (c, store') ∧
        (∃ ext, store' = store ++ ext) ∧ content fuel store' c = some t ∧
        ∀ x ∈ owned fuel store' c, store.length ≤ x)
    (as : List BaseEventSPtr) (store : EventsStore) (ts : List EventContent)
    (h : contentList (content fuel store) as = some ts) :
    ∃ cs store', CloneVectorOfEvents (WhileEvent.copyConstructor fuel) store as
        = some (cs, store') ∧
      (∃ ext, store' = store ++ ext) ∧
      contentList (content fuel store') cs = some ts ∧
      (∀ c ∈ cs, ∀ x ∈ owned fuel store' c, store.length ≤ x) ∧
      cs.length = as.length := by
  induction as generalizing store ts with
  | nil =>
    simp only [contentList, Option.some.injEq] at h
    subst h
    exact ⟨[], store, rfl, ⟨[], (List.append_nil store).symm⟩, rfl,
      fun c hc => absurd hc (List.not_mem_nil c), rfl⟩
  | cons a rest ihl =>
    obtain ⟨t, ts', ha, hrest, rfl⟩ := contentList_cons_some _ a rest ts h
    obtain ⟨c, store1, hc, ⟨ext1, rfl⟩, hcc, hfresh⟩ := ih store a t ha
    have hrest1 := contentList_append fuel store ext1 rest ts' hrest
    obtain ⟨cs, store2, hcs, ⟨ext2, rfl⟩, hcsc, hcsfresh, hlen⟩ :=
      ihl (store ++ ext1) ts' hrest1.1
    have hc2 := content_append fuel (store ++ ext1) ext2 c t hcc
    refine ⟨c :: cs, store ++ ext1 ++ ext2, ?_, ⟨ext1 ++ ext2, by simp⟩, ?_, ?_, ?_⟩
    · simp only [CloneVectorOfEvents, hc, hcs]
    · simp only [contentList, hc2.1, hcsc]
    · intro c' hc' x hx
      rcases List.mem_cons.1 hc' with rfl | hc'
      · rw [hc2.2] at hx
        exact hfresh x hx
      · have := hcsfresh c' hc' x hx
        rw [List.length_append] at this
        omega
    · simp [hlen]

/-- Copy construction of an event whose tree has a content: the store grows at its end, the
new object has the same content, and every object of its tree is new. -/
theorem WhileEvent.copyConstructor_spec (fuel : Nat) :
    ∀ store a t, content fuel store a = some t →
      ∃ c store', WhileEvent.copyConstructor fuel store a = some (c, store') ∧
        (∃ ext, store' = store ++ ext) ∧ content fuel store' c = some t ∧
        ∀ x ∈ owned fuel store' c, store.length ≤ x := by
  induction fuel with
  | zero =>
    intro store a t h
    simp [content] at h
  | succ k ih =>
    intro store a t h
    obtain ⟨obj, kids, hobj, hkids, rfl⟩ := content_succ_inv k store a t h
    obtain ⟨cs, store1, hcs, ⟨ext, rfl⟩, hcontent, hfresh, _⟩ :=
      CloneVectorOfEvents_spec k ih obj.events store kids hkids
    have hnew : ∀ this : WhileEvent BaseEventSPtr,
        (store ++ ext ++ [this])[(store ++ ext).length]? = some this :=
      fun this => List.getElem?_concat_length _ _
    have hrun : ∃ this : WhileEvent BaseEventSPtr, this.events = cs ∧
        this.whileConditions = obj.whileConditions ∧ this.conditions = obj.conditions ∧
        this.actions = obj.actions ∧
        WhileEvent.copyConstructor (k + 1) store a
          = some ((store ++ ext).length, store ++ ext ++ [this]) := by
      refine ⟨{ whileConditions := obj.whileConditions, conditions := obj.conditions,
                actions := obj.actions, events := cs, renderedHeight := obj.renderedHeight,
                eventHeightNeedUpdate := obj.eventHeightNeedUpdate }, rfl, rfl, rfl, rfl, ?_⟩
      simp only [WhileEvent.copyConstructor, hobj, WhileEvent.Init, hcs]
      rfl
    obtain ⟨this, he, hw, hc, ha, hrun⟩ := hrun
    have hk := contentList_append k (store ++ ext) [this] cs kids hcontent
    refine ⟨(store ++ ext).length, store ++ ext ++ [this], hrun,
      ⟨ext ++ [this], List.append_assoc _ _ _⟩, ?_, ?_⟩
    · rw [content_succ_some k _ _ _ (hnew this), he, hw, hc, ha]
      simp only [hk.1]
    · intro x hx
      rw [owned_succ_some k _ _ _ (hnew this), he] at hx
      rcases List.mem_cons.1 hx with rfl | hx
      · simp
      · obtain ⟨b, hb, hxb⟩ := List.mem_flatMap.1 hx
        rw [hk.2 b hb] at hxb
        exact hfresh b hb x hxb

/-- The method `Init` on an event whose sub-events have contents: the lists are those of
`event`, the sub-events are as many new objects with the contents of the sub-events of
`event`, the base members of `this` are kept, and the store grows at its end. -/
theorem WhileEvent.Init_spec (fuel : Nat) (store : EventsStore)
    (this event : WhileEvent BaseEventSPtr) (kids : List EventContent)
    (h : contentList (content fuel store) event.events = some kids) :
    ∃ this' store1, WhileEvent.Init (WhileEvent.copyConstructor fuel) store this event
        = some (this', store1) ∧
      (∃ ext, store1 = store ++ ext) ∧
      this'.whileConditions = event.whileConditions ∧
      this'.conditions = event.conditions ∧
      this'.actions = event.actions ∧
      this'.events.length = event.events.length ∧
      this'.renderedHeight = this.renderedHeight ∧
      this'.eventHeightNeedUpdate = this.eventHeightNeedUpdate ∧
      contentList (content fuel store1) this'.events = some kids ∧
      ∀ c ∈ this'.events, ∀ x ∈ owned fuel store1 c, store.length ≤ x := by
  obtain ⟨cs, store1, hcs, hext, hcontent, hfresh, hlen⟩ :=
    CloneVectorOfEvents_spec fuel (WhileEvent.copyConstructor_spec fuel) event.events store
      kids h
  refine ⟨{ this with events := cs, whileConditions := event.whileConditions,
                      conditions := event.conditions, actions := event.actions },
    store1, ?_, hext, rfl, rfl, rfl, hlen, rfl, rfl, hcontent, hfresh⟩
  simp only [WhileEvent.Init, hcs]

theorem contentList_frame (fuel : Nat) (store store2 : EventsStore) (as : List BaseEventSPtr)
    (h : ∀ a ∈ as, ∀ x ∈ owned fuel store a, store2[x]? = store[x]?) :
    contentList (content fuel store2) as = contentList (content fuel store) as ∧
    ∀ a ∈ as, owned fuel store2 a = owned fuel store a :=
  ⟨contentList_congr _ _ _ (fun a ha => (content_owned_frame fuel store store2 a (h a ha)).1),
   fun a ha => (content_owned_frame fuel store store2 a (h a ha)).2⟩

theorem contentList_eq_map (f : BaseEventSPtr → Option EventContent)
    (as : List BaseEventSPtr) (ts : List EventContent) (h : contentList f as = some ts) :
    as.map f = ts.map some := by
  induction as generalizing ts with
  | nil =>
    simp only [contentList, Option.some.injEq] at h
    subst h
    rfl
  | cons b rest ih =>
    obtain ⟨t, ts', hb, hrest, rfl⟩ := contentList_cons_some f b rest ts h
    simp [hb, ih ts' hrest]

/-- An object with the lists of `e`, with new sub-events that have the contents of the
sub-events of `e`, and that is not an object of the tree of `e`, is an isolated copy. -/
theorem isolatedCopy_of (fuel : Nat) (store after : EventsStore) (eAddr cAddr : BaseEventSPtr)
    (e c : WhileEvent BaseEventSPtr) (kids : List EventContent)
    (he : store[eAddr]? = some e)
    (hkids : contentList (content fuel store) e.events = some kids)
    (hc : after[cAddr]? = some c)
    (h1 : c.whileConditions = e.whileConditions) (h2 : c.conditions = e.conditions)
    (h3 : c.actions = e.actions) (h4 : c.events.length = e.events.length)
    (hagree : ∀ y ∈ owned (fuel + 1) store eAddr, after[y]? = store[y]?)
    (hckids : contentList (content fuel after) c.events = some kids)
    (hfresh : ∀ b ∈ c.events, ∀ x ∈ owned fuel after b, store.length ≤ x)
    (hroot : cAddr ∉ owned (fuel + 1) store eAddr) :
    IsolatedCopy fuel store after eAddr cAddr := by
  have hte : content (fuel + 1) store eAddr
      = some (EventContent.mk e.whileConditions e.conditions e.actions kids) := by
    rw [content_succ_some fuel store eAddr e he]
    simp only [hkids]
  have hlt := owned_lt_of_content _ _ _ _ hte
  have hfe := content_owned_frame (fuel + 1) store after eAddr hagree
  have htc : content (fuel + 1) after cAddr
      = some (EventContent.mk e.whileConditions e.conditions e.actions kids) := by
    rw [content_succ_some fuel after cAddr c hc, h1, h2, h3]
    simp only [hckids]
  have hsep : ∀ x ∈ owned (fuel + 1) after cAddr, ∀ y ∈ owned (fuel + 1) after eAddr,
      x ≠ y := by
    intro x hx y hy
    rw [hfe.2] at hy
    rw [owned_succ_some fuel after cAddr c hc] at hx
    rcases List.mem_cons.1 hx with rfl | hx
    · intro hxy
      exact hroot (hxy ▸ hy)
    · obtain ⟨b, hb, hxb⟩ := List.mem_flatMap.1 hx
      have hx1 : store.length ≤ x := hfresh b hb x hxb
      have hy1 : y < store.length := hlt y hy
      intro hxy
      rw [hxy] at hx1
      exact absurd (Nat.lt_of_lt_of_le hy1 hx1) (Nat.lt_irrefl _)
  refine ⟨e, c, _, he, hc, h1, h2, h3, h4, ?_, hte, hfe.1.trans hte, htc, hagree, hsep, ?_, ?_⟩
  · rw [contentList_eq_map _ _ _ hckids, contentList_eq_map _ _ _ hkids]
  · intro x hx v
    have hcells : ∀ y ∈ owned (fuel + 1) store eAddr, (after.set x v)[y]? = store[y]? := by
      intro y hy
      have hy' : y ∈ owned (fuel + 1) after eAddr := by rw [hfe.2]; exact hy
      rw [List.getElem?_set_ne (hsep x hx y hy')]
      exact hagree y hy
    refine ⟨(content_owned_frame (fuel + 1) store (after.set x v) eAddr hcells).1.trans hte, ?_⟩
    intro y hy
    rw [hfe.2] at hy
    exact hcells y hy
  · intro y hy v
    have hcells : ∀ x ∈ owned (fuel + 1) after cAddr, (after.set y v)[x]? = after[x]? := by
      intro x hx
      exact List.getElem?_set_ne (fun hyx => hsep x hx y hy hyx.symm)
    exact ⟨(content_owned_frame (fuel + 1) after (after.set y v) cAddr hcells).1.trans htc,
      hcells⟩

/-- C7. Deep-copy isolation, for an event whose sub-event tree is well formed (it has a
content within the depth `fuel + 1`). The copy constructor returns a new object that is an
isolated copy of the event; the assignment to a separate event (a well-formed tree that has
no object in common with the tree of the event) makes that object an isolated copy of the
event; the assignment of the event to itself leaves the store as it is. An isolated copy has
the three lists of the event, as many sub-events with the same contents in the same order,
shares no object with the event, and a write to any object of one of the two trees leaves
every object of the other tree unchanged. -/
theorem WhileEvent.copy_isolated (fuel : Nat) (store : EventsStore) (eAddr : BaseEventSPtr)
    (t : EventContent) (ht : content (fuel + 1) store eAddr = some t) :
    (∃ c store', WhileEvent.copyConstructor (fuel + 1) store eAddr = some (c, store') ∧
      IsolatedCopy fuel store store' eAddr c) ∧
    (∀ thisAddr tt, content (fuel + 1) store thisAddr = some tt →
      (∀ x ∈ owned (fuel + 1) store thisAddr, ∀ y ∈ owned (fuel + 1) store eAddr, x ≠ y) →
      ∃ store', WhileEvent.assign fuel store thisAddr eAddr = some store' ∧
        IsolatedCopy fuel store store' eAddr thisAddr) ∧
    WhileEvent.assign fuel store eAddr eAddr = some store := by
  have hlt := owned_lt_of_content _ _ _ _ ht
  obtain ⟨e, kids, he, hkids, _⟩ := content_succ_inv fuel store eAddr t ht
  refine ⟨?_, ?_, ?_⟩
  · obtain ⟨this', store1, hinit, ⟨ext, rfl⟩, h1, h2, h3, h4, _, _, hck, hfresh⟩ :=
      WhileEvent.Init_spec fuel store (BaseEvent.copy e) e kids hkids
    have hk := contentList_append fuel (store ++ ext) [this'] _ _ hck
    refine ⟨(store ++ ext).length, store ++ ext ++ [this'], ?_, ?_⟩
    · simp only [WhileEvent.copyConstructor, he, hinit]
    · refine isolatedCopy_of fuel store _ eAddr _ e this' kids he hkids
        (List.getElem?_concat_length _ _) h1 h2 h3 h4 ?_ hk.1 ?_ ?_
      · intro y hy
        rw [List.append_assoc]
        exact List.getElem?_append_left (hlt y hy)
      · intro b hb x hx
        rw [hk.2 b hb] at hx
        exact hfresh b hb x hx
      · intro hmem
        have h5 : (store ++ ext).length < store.length := hlt _ hmem
        rw [List.length_append] at h5
        omega
  · intro thisAddr tt htt hsep
    have hthis : (thisAddr : Nat) < store.length :=
      owned_lt_of_content _ _ _ _ htt thisAddr (mem_owned_self _ _ _)
    have hnot : thisAddr ∉ owned (fuel + 1) store eAddr :=
      fun hmem => hsep thisAddr (mem_owned_self _ _ _) thisAddr hmem rfl
    have hne : thisAddr ≠ eAddr := by
      intro h
      exact hnot (h ▸ mem_owned_self _ _ _)
    have hobj : store[thisAddr]? = some store[thisAddr] := List.getElem?_eq_getElem hthis
    obtain ⟨this', store1, hinit, ⟨ext, rfl⟩, h1, h2, h3, h4, _, _, hck, hfresh⟩ :=
      WhileEvent.Init_spec fuel store (BaseEvent.assign store[thisAddr] e) e kids hkids
    have hthis1 : thisAddr < (store ++ ext).length := by
      rw [List.length_append]
      exact Nat.lt_of_lt_of_le hthis (Nat.le_add_right _ _)
    have hframe := contentList_frame fuel (store ++ ext) ((store ++ ext).set thisAddr this')
      this'.events (fun b hb x hx =>
        List.getElem?_set_ne (Nat.ne_of_lt (Nat.lt_of_lt_of_le hthis (hfresh b hb x hx))))
    refine ⟨(store ++ ext).set thisAddr this', ?_, ?_⟩
    · simp only [WhileEvent.assign, hne, ne_eq, not_false_eq_true, if_true, hobj, he, hinit]
    · refine isolatedCopy_of fuel store _ eAddr thisAddr e this' kids he hkids
        (List.getElem?_set_self hthis1) h1 h2 h3 h4 ?_ (hframe.1.trans hck) ?_ hnot
      · intro y hy
        have hy1 : thisAddr ≠ y := fun h => hnot (h ▸ hy)
        rw [List.getElem?_set_ne hy1]
        exact List.getElem?_append_left (hlt y hy)
      · intro b hb x hx
        rw [hframe.2 b hb] at hx
        exact hfresh b hb x hx
  · simp [WhileEvent.assign]

/-- The copy of the sample event (address 3, sub-events down to depth 2) by the copy
constructor and by assignment to the object of address 4, and the example of the
specification: an action appended to the first sub-event of the copy (address 6) leaves the
first sub-event of the original (address 1) as it was. -/
theorem WhileEvent.copy_isolated_witness :
    (∃ c store', WhileEvent.copyConstructor 3 sampleStore 3 = some (c, store') ∧
      IsolatedCopy 2 sampleStore store' 3 c) ∧
    (∃ store', WhileEvent.assign 2 sampleStore 4 3 = some store' ∧
      IsolatedCopy 2 sampleStore store' 3 4) ∧
    WhileEvent.assign 2 sampleStore 3 3 = some sampleStore ∧
    (sampleCopiedStore[8]?.map (fun c => c.events)) = some [6, 7] ∧
    (sampleChangedStore[6]?.map (fun c => c.actions))
      = some [⟨"ModVarScene", ["j", "+", "1"]⟩, ⟨"Quit", []⟩] ∧
    (sampleChangedStore[1]?.map (fun c => c.actions))
      = some [⟨"ModVarScene", ["j", "+", "1"]⟩] ∧
    (∀ y ∈ owned 3 sampleStore 3, sampleChangedStore[y]? = sampleStore[y]?) := by
  have h := WhileEvent.copy_isolated 2 sampleStore 3 _ rfl
  exact ⟨h.1, h.2.1 4 _ rfl (by decide), h.2.2, by decide, by decide, by decide, by decide⟩

/-! ### Memoization and the instruction vectors -/

/-- C11. Height memoization: whatever the flag of the event is before, after a first
`GetRenderedHeight(w)` the flag is clear, and a second call with nothing in between returns
the same value, leaves the event as the first call left it (`renderedHeight` and the flag
included) and does not consult the rendering helper: its outcome is the same with any other
helper. -/
theorem WhileEvent.GetRenderedHeight_memoized {Ev : Type} (h h' : EventsRenderingHelper)
    (e : WhileEvent Ev) (w : Nat) :
    (WhileEvent.GetRenderedHeight h e w).2.eventHeightNeedUpdate = false ∧
    (WhileEvent.GetRenderedHeight h (WhileEvent.GetRenderedHeight h e w).2 w).1
      = (WhileEvent.GetRenderedHeight h e w).1 ∧
    (WhileEvent.GetRenderedHeight h (WhileEvent.GetRenderedHeight h e w).2 w).2.renderedHeight
      = (WhileEvent.GetRenderedHeight h e w).2.renderedHeight ∧
    (WhileEvent.GetRenderedHeight h
        (WhileEvent.GetRenderedHeight h e w).2 w).2.eventHeightNeedUpdate
      = (WhileEvent.GetRenderedHeight h e w).2.eventHeightNeedUpdate ∧
    (WhileEvent.GetRenderedHeight h (WhileEvent.GetRenderedHeight h e w).2 w).2
      = (WhileEvent.GetRenderedHeight h e w).2 ∧
    WhileEvent.GetRenderedHeight h' (WhileEvent.GetRenderedHeight h e w).2 w
      = WhileEvent.GetRenderedHeight h (WhileEvent.GetRenderedHeight h e w).2 w := by
  have ha := WhileEvent.GetRenderedHeight_after h e w
  have hc := WhileEvent.GetRenderedHeight_clean h (WhileEvent.GetRenderedHeight h e w).2 w ha.1
  have hc' := WhileEvent.GetRenderedHeight_clean h' (WhileEvent.GetRenderedHeight h e w).2 w ha.1
  refine ⟨ha.1, ?_, ?_, ?_, ?_, ?_⟩
  · rw [hc]
    exact ha.2.1
  · rw [hc]
  · rw [hc]
  · rw [hc]
  · rw [hc, hc']

/-- C13. `GetAllConditionsVectors` returns exactly two entries, the address of
`whileConditions` and then the address of `conditions`; `GetAllActionsVectors` returns
exactly one entry, the address of `actions`; reading through the entries yields the lists
of the event, also right after a list has been changed through an entry, and the entries
are the same after such a change. The two calls yield their vector alone: the event is an
input only. -/
theorem WhileEvent.GetAllVectors_eq {Ev : Type} (e : WhileEvent Ev) :
    WhileEvent.GetAllConditionsVectors e
      = [InstructionsVectorPtr.whileConditions, InstructionsVectorPtr.conditions] ∧
    (WhileEvent.GetAllConditionsVectors e).length = 2 ∧
    WhileEvent.GetAllActionsVectors e = [InstructionsVectorPtr.actions] ∧
    (WhileEvent.GetAllActionsVectors e).length = 1 ∧
    (WhileEvent.GetAllConditionsVectors e).map e.read = [e.whileConditions, e.conditions] ∧
    (WhileEvent.GetAllActionsVectors e).map e.read = [e.actions] ∧
    (∀ p l, (e.write p l).read p = l ∧
      WhileEvent.GetAllConditionsVectors (e.write p l) = WhileEvent.GetAllConditionsVectors e ∧
      WhileEvent.GetAllActionsVectors (e.write p l) = WhileEvent.GetAllActionsVectors e) :=
  ⟨rfl, rfl, rfl, rfl, rfl, rfl, fun p l => ⟨(WhileEvent.read_write e p l).1, rfl, rfl⟩⟩

/-! ### Flag names -/

theorem digitChar_value : ∀ m, m < 10 → (Nat.digitChar m).toNat - 48 = m := by
  decide

theorem foldl_toDigitsCore (fuel n : Nat) (ds : List Char) (h : n < fuel) :
    (Nat.toDigitsCore 10 fuel n ds).foldl (fun acc c => 10 * acc + (c.toNat - 48)) 0
      = ds.foldl (fun acc c => 10 * acc + (c.toNat - 48)) n := by
  induction fuel generalizing n ds with
  | zero => omega
  | succ k ih =>
    simp only [Nat.toDigitsCore]
    have hd := digitChar_value (n % 10) (Nat.mod_lt _ (by decide))
    have hn := Nat.div_add_mod n 10
    split
    · rename_i h0
      simp only [List.foldl_cons, hd]
      congr 1
      omega
    · rename_i h0
      have hlt : n / 10 < k := by omega
      rw [ih (n / 10) _ hlt]
      simp only [List.foldl_cons, hd]
      congr 1

/-- The decimal text of a number stands for that number. -/
theorem decodeDecimal_ToString (n : Nat) : decodeDecimal (ToString n).data = n := by
  simp only [ToString, Nat.repr, Nat.toDigits, List.asString, decodeDecimal]
  rw [foldl_toDigitsCore _ _ _ (Nat.lt_succ_self n)]
  rfl

theorem flagName_injective : Function.Injective flagName := by
  intro i j h
  have hd : (flagName i).data = (flagName j).data := by rw [h]
  simp only [flagName, String.data_append] at hd
  have h1 := List.append_cancel_right hd
  have h2 := List.append_cancel_left h1
  have h3 := congrArg decodeDecimal h2
  rwa [decodeDecimal_ToString, decodeDecimal_ToString] at h3

/-- A predicate written with the flag names. -/
theorem predicate_eq_flags (n : Nat) :
    (List.range n).foldl
      (fun acc i => acc ++ (" && condition" ++ ToString i ++ "IsTrue")) "true"
      = "true" ++ String.join (((List.range n).map flagName).map (fun f => " && " ++ f)) := by
  rw [foldl_append_eq_join]
  congr 2
  rw [List.map_map]
  apply List.map_congr_left
  intro i _
  apply String.ext
  simp [flagName, String.data_append]

/-! ### Layout -/

theorem toInt_of_inRange (x : Int) (h0 : -2147483648 ≤ x) (h1 : x < 2147483648) :
    toInt x = x := by
  unfold toInt
  omega

/-- The value computed for an event whose flag is set. -/
theorem WhileEvent.GetRenderedHeight_value {Ev : Type} (h : EventsRenderingHelper)
    (e : WhileEvent Ev) (width : Nat) (hd : e.eventHeightNeedUpdate = true) :
    (WhileEvent.GetRenderedHeight h e width).1 =
      toUnsigned
        (((if h.GetRenderedConditionsListHeight e.conditions
                (toUnsigned (h.GetConditionsColumnWidth - h.instructionsListBorder))
              > h.GetRenderedActionsListHeight e.actions
                (toUnsigned (width - h.GetConditionsColumnWidth
                  - h.instructionsListBorder * 2))
            then h.GetRenderedConditionsListHeight e.conditions
                (toUnsigned (h.GetConditionsColumnWidth - h.instructionsListBorder))
            else h.GetRenderedActionsListHeight e.actions
                (toUnsigned (width - h.GetConditionsColumnWidth
                  - h.instructionsListBorder * 2)))
          + h.GetRenderedConditionsListHeight e.whileConditions
              (toUnsigned (width - 80 - h.instructionsListBorder * 2))
          + 20) + h.instructionsListBorder * 2 + h.instructionsListBorder * 2) := by
  simp only [WhileEvent.GetRenderedHeight, hd, if_true]

/-- C14. Render and `GetRenderedHeight` agree on the layout. For an event whose flag is
set when `Render` is entered, with non-negative measured heights (`h_w` and `h_c` suffice,
`h_a` may be any), a non-negative border and a total that fits an `int`: `Render` draws the header rectangle at
`(x, y)` with height `h_w + 2*border + 20`, then the conditions rectangle at
`(x, y + h_w + 2*border + 20)` with the non-negative height `max(h_c, h_a) + 2*border`; the
two heights add up to the value of `GetRenderedHeight(width)`; the three lists are drawn
with the widths at which their heights are measured; and the event is left as
`GetRenderedHeight(width)` leaves it. -/
theorem WhileEvent.Render_layout {Ev : Type} (h : EventsRenderingHelper) (e : WhileEvent Ev)
    (x y : Int) (width : Nat) (border ccw h_w h_c h_a : Int)
    (hborder : h.instructionsListBorder = border)
    (hccw : h.GetConditionsColumnWidth = ccw)
    (hw : h.GetRenderedConditionsListHeight e.whileConditions
      (toUnsigned (width - 80 - 2 * border)) = h_w)
    (hc : h.GetRenderedConditionsListHeight e.conditions (toUnsigned (ccw - border)) = h_c)
    (ha : h.GetRenderedActionsListHeight e.actions
      (toUnsigned (width - ccw - 2 * border)) = h_a)
    (hd : e.eventHeightNeedUpdate = true)
    (h0w : 0 ≤ h_w) (h0c : 0 ≤ h_c) (h0b : 0 ≤ border)
    (hfit : h_w + 20 + max h_c h_a + 2 * border + 2 * border < 2147483648) :
    (WhileEvent.Render h e x y width).1 =
      [ DrawCommand.DrawNiceRectangle
          { x := x, y := y, width := toInt width, height := h_w + 2 * border + 20 },
        DrawCommand.SetFontNiceBold,
        DrawCommand.SetTextForeground 0 0 0,
        DrawCommand.DrawText "Tant que :" (x + 5) (y + 5),
        DrawCommand.DrawConditionsList e.whileConditions (x + 80 + border) (y + border)
          (toUnsigned (width - 80 - 2 * border)),
        DrawCommand.SetFontNiceBold,
        DrawCommand.SetTextForeground 0 0 0,
        DrawCommand.DrawText "Répéter :" (x + 4) (y + (h_w + 2 * border) + 3),
        DrawCommand.DrawNiceRectangle
          { x := x, y := y + (h_w + 2 * border + 20), width := toInt (ccw + border),
            height := max h_c h_a + 2 * border },
        DrawCommand.DrawConditionsList e.conditions (x + border)
          (y + (h_w + 2 * border + 20) + border) (toUnsigned (ccw - border)),
        DrawCommand.DrawActionsList e.actions (x + ccw + border)
          (y + (h_w + 2 * border + 20) + border) (toUnsigned (width - ccw - 2 * border)) ] ∧
    0 ≤ max h_c h_a + 2 * border ∧
    ((WhileEvent.GetRenderedHeight h e width).1 : Int)
      = (h_w + 2 * border + 20) + (max h_c h_a + 2 * border) ∧
    (WhileEvent.Render h e x y width).2 = (WhileEvent.GetRenderedHeight h e width).2 := by
  have hafter := WhileEvent.GetRenderedHeight_after h e width
  have hv := WhileEvent.GetRenderedHeight_value h e width hd
  have hm : 0 ≤ max h_c h_a := le_trans h0c (le_max_left _ _)
  have e2 : h.instructionsListBorder * 2 = 2 * border := by rw [hborder]; ring
  rw [e2, hccw, hborder, hw, hc, ha] at hv
  have hif : (if h_c > h_a then h_c else h_a) = max h_c h_a := by
    by_cases hgt : h_c > h_a
    · rw [if_pos hgt, max_eq_left (le_of_lt hgt)]
    · rw [if_neg hgt, max_eq_right (not_lt.1 hgt)]
  rw [hif] at hv
  have hRH : ((WhileEvent.GetRenderedHeight h e width).1 : Int)
      = (h_w + 2 * border + 20) + (max h_c h_a + 2 * border) := by
    rw [hv, toUnsigned_of_inRange _ (by linarith) (by linarith)]
    ring
  have hrect : toInt (toUnsigned (((WhileEvent.GetRenderedHeight h e width).1 : Int)
      - (h_w + 2 * border + 20))) = max h_c h_a + 2 * border := by
    rw [hRH]
    have e3 : h_w + 2 * border + 20 + (max h_c h_a + 2 * border) - (h_w + 2 * border + 20)
        = max h_c h_a + 2 * border := by ring
    rw [e3, toUnsigned_of_inRange _ (by linarith) (by linarith),
      toInt_of_inRange _ (by linarith) (by linarith)]
  refine ⟨?_, by linarith, hRH, ?_⟩
  · simp only [WhileEvent.Render, List.nil_append, List.cons_append, List.append_assoc,
      hccw, hborder, mul_comm border 2, hw, hafter.2.2.2.1, hafter.2.2.2.2.1, hrect]
  · rfl

/-- The layout of the sample event without sub-events drawn at `(10, 20)` with width 800:
a header of height 48, the conditions rectangle right below it at `y = 68` with height 28,
together the 76 pixels of `GetRenderedHeight(800)`. -/
theorem WhileEvent.Render_layout_witness :
    (WhileEvent.Render sampleHelper sampleLeafEvent 10 20 800).1 =
      [ DrawCommand.DrawNiceRectangle
          { x := 10, y := 20, width := toInt (800 : Nat), height := 18 + 2 * 5 + 20 },
        DrawCommand.SetFontNiceBold,
        DrawCommand.SetTextForeground 0 0 0,
        DrawCommand.DrawText "Tant que :" (10 + 5) (20 + 5),
        DrawCommand.DrawConditionsList sampleLeafEvent.whileConditions (10 + 80 + 5) (20 + 5)
          (toUnsigned ((800 : Nat) - 80 - 2 * 5)),
        DrawCommand.SetFontNiceBold,
        DrawCommand.SetTextForeground 0 0 0,
        DrawCommand.DrawText "Répéter :" (10 + 4) (20 + (18 + 2 * 5) + 3),
        DrawCommand.DrawNiceRectangle
          { x := 10, y := 20 + (18 + 2 * 5 + 20), width := toInt (200 + 5),
            height := max 0 18 + 2 * 5 },
        DrawCommand.DrawConditionsList sampleLeafEvent.conditions (10 + 5)
          (20 + (18 + 2 * 5 + 20) + 5) (toUnsigned (200 - 5)),
        DrawCommand.DrawActionsList sampleLeafEvent.actions (10 + 200 + 5)
          (20 + (18 + 2 * 5 + 20) + 5) (toUnsigned ((800 : Nat) - 200 - 2 * 5)) ] ∧
    ((WhileEvent.GetRenderedHeight sampleHelper sampleLeafEvent 800).1 : Int)
      = (18 + 2 * 5 + 20) + (max 0 18 + 2 * 5) := by
  have h := WhileEvent.Render_layout sampleHelper sampleLeafEvent 10 20 800 5 200 18 0 18
    rfl rfl (by decide) (by decide) (by decide) rfl (by decide) (by decide) (by decide)
    (by decide)
  exact ⟨h.1, h.2.2.1⟩

/-! ### The generated text as C++ reads it -/

theorem scan_append (a b : List Char) (st : Lex × Nat) :
    scan (a ++ b) st = (scan a st).bind (scan b) := by
  induction a generalizing st with
  | nil => rfl
  | cons c cs ih =>
    simp only [List.cons_append, scan]
    cases scanStep st c with
    | none => rfl
    | some st' => exact ih st'

theorem scanStep_add (l l' : Lex) (d r k : Nat) (c : Char)
    (h : scanStep (l, d) c = some (l', r)) : scanStep (l, d + k) c = some (l', r + k) := by
  unfold scanStep at h ⊢
  by_cases h1 : l.live = true ∧ c = '{'
  · simp only [h1, and_self, if_true, Option.some.injEq, Prod.mk.injEq] at h ⊢
    exact ⟨h.1, by omega⟩
  · simp only [h1, if_false] at h ⊢
    by_cases h2 : l.live = true ∧ c = '}'
    · simp only [h2, and_self, if_true] at h ⊢
      by_cases hd : d = 0
      · simp [hd] at h
      · have hdk : ¬ d + k = 0 := by omega
        simp only [hd, hdk, if_false, Option.some.injEq, Prod.mk.injEq] at h ⊢
        exact ⟨h.1, by omega⟩
    · simp only [h2, if_false, Option.some.injEq, Prod.mk.injEq] at h ⊢
      exact ⟨h.1, by omega⟩

theorem scan_add (a : List Char) (l l' : Lex) (d r k : Nat)
    (h : scan a (l, d) = some (l', r)) : scan a (l, d + k) = some (l', r + k) := by
  induction a generalizing l d with
  | nil =>
    simp only [scan, Option.some.injEq, Prod.mk.injEq] at h ⊢
    exact ⟨h.1, by omega⟩
  | cons c cs ih =>
    simp only [scan] at h ⊢
    cases hs : scanStep (l, d) c with
    | none => simp [hs] at h
    | some st' =>
      obtain ⟨l1, d1⟩ := st'
      rw [hs] at h
      rw [scanStep_add l l1 d d1 k c hs]
      exact ih l1 d1 h

theorem Closed.scan {s : String} (h : Closed s) (d : Nat) :
    scan s.data (Lex.code, d) = some (Lex.code, d) := by
  have := scan_add s.data Lex.code Lex.code 0 0 d h
  simpa using this

theorem scan_plain (a : List Char) (d : Nat) (h : ∀ c ∈ a, plainChar c = true) :
    scan a (Lex.code, d) = some (Lex.code, d) := by
  induction a with
  | nil => rfl
  | cons c cs ih =>
    have hc := plainChar_ne c (h c (List.mem_cons_self _ _))
    have hstep : scanStep (Lex.code, d) c = some (Lex.code, d) := by
      simp [scanStep, Lex.step, hc.1, hc.2.1, hc.2.2.2.1, hc.2.2.2.2.1, hc.2.2.2.2.2]
    simp only [scan, hstep]
    exact ih (fun x hx => h x (List.mem_cons_of_mem _ hx))

theorem readWord_of_scan (s : String) (d r : Nat)
    (h : scan s.data (Lex.code, d) = some (Lex.code, r)) :
    readWord s (Lex.code, d) = some (Lex.code, r) := by
  simp [readWord, h]

theorem readWord_plain (s : String) (d : Nat) (h : ∀ c ∈ s.data, plainChar c = true) :
    readWord s (Lex.code, d) = some (Lex.code, d) :=
  readWord_of_scan s d d (scan_plain _ _ h)

theorem readFragment_closed (s : String) (d : Nat) (h : Closed s) :
    readFragment s (Lex.code, d) = some (Lex.code, d) := by
  have h0 : scan s.data (Lex.code, 0) = some (Lex.code, 0) := h
  simp [readFragment, h0]

theorem readWord_scan (s : String) (st st' : Lex × Nat) (h : readWord s st = some st') :
    scan s.data st = some st' := by
  unfold readWord at h
  split at h
  · cases hs : scan s.data st with
    | none => simp [hs] at h
    | some r =>
      simp only [hs, Option.bind_eq_bind, Option.some_bind] at h
      split at h
      · exact h
      · exact absurd h (by simp)
  · exact absurd h (by simp)

theorem readFragment_scan (s : String) (st st' : Lex × Nat) (h : readFragment s st = some st') :
    scan s.data st = some st' := by
  obtain ⟨l, d⟩ := st
  unfold readFragment at h
  split at h
  · rename_i hl
    simp only at hl
    subst hl
    cases hs : scan s.data (Lex.code, 0) with
    | none => simp [hs] at h
    | some r =>
      obtain ⟨l', k⟩ := r
      simp only [hs, Option.bind_eq_bind, Option.some_bind] at h
      split at h
      · rename_i hk
        have hk0 : k = 0 := hk
        subst hk0
        have := scan_add s.data Lex.code l' 0 0 d hs
        simp only [Nat.zero_add] at this
        rw [this]
        exact h
      · exact absurd h (by simp)
  · exact absurd h (by simp)

/-- What `reads` returns is the scan of the text of the tree. -/
theorem Stmt.reads_scan (s : Stmt) :
    ∀ st st' : Lex × Nat, s.reads st = some st' → scan s.text.data st = some st' := by
  induction s with
  | layout t => exact fun st st' h => readWord_scan _ _ _ h
  | fragment p t => exact fun st st' h => readFragment_scan _ _ _ h
  | declareStop => exact fun st st' h => readWord_scan _ _ _ h
  | setStop => exact fun st st' h => readWord_scan _ _ _ h
  | seq a b iha ihb =>
    intro st st' h
    simp only [Stmt.reads, Option.bind_eq_bind, Option.bind_eq_some] at h
    obtain ⟨m, h1, h2⟩ := h
    simp only [Stmt.text, String.data_append, scan_append, iha _ _ h1, Option.bind_eq_bind,
      Option.some_bind, ihb _ _ h2]
  | block b ih =>
    intro st st' h
    simp only [Stmt.reads, Option.bind_eq_bind, Option.bind_eq_some] at h
    obtain ⟨m3, ⟨m2, ⟨m1, h1, h2⟩, h3⟩, h4⟩ := h
    split at h4
    · simp only [Option.some.injEq] at h4
      subst h4
      simp only [Stmt.text, String.data_append, scan_append, readWord_scan _ _ _ h1,
        Option.bind_eq_bind, Option.some_bind, ih _ _ h2, readWord_scan _ _ _ h3]
    · exact absurd h4 (by simp)
  | ifThen t p th ih =>
    intro st st' h
    simp only [Stmt.reads, Option.bind_eq_bind, Option.bind_eq_some] at h
    obtain ⟨m1, h1, h2⟩ := h
    have := readWord_scan _ _ _ h1
    simp only [String.data_append] at this
    simp only [Stmt.text, String.data_append, scan_append, Option.bind_eq_bind] at this ⊢
    simp only [this, Option.some_bind, ih _ _ h2]
  | ifThenElse t p th el ih1 ih2 =>
    intro st st' h
    simp only [Stmt.reads, Option.bind_eq_bind, Option.bind_eq_some] at h
    obtain ⟨m3, ⟨m2, ⟨m1, h1, h2⟩, h3⟩, h4⟩ := h
    have := readWord_scan _ _ _ h1
    simp only [String.data_append] at this
    simp only [Stmt.text, String.data_append, scan_append, Option.bind_eq_bind] at this ⊢
    simp only [this, Option.some_bind, ih1 _ _ h2, readWord_scan _ _ _ h3, ih2 _ _ h4]
  | doWhileNotStop b ih =>
    intro st st' h
    simp only [Stmt.reads, Option.bind_eq_bind, Option.bind_eq_some] at h
    obtain ⟨m2, ⟨m1, h1, h2⟩, h3⟩ := h
    simp only [Stmt.text, String.data_append, scan_append, readWord_scan _ _ _ h1,
      Option.bind_eq_bind, Option.some_bind, ih _ _ h2, readWord_scan _ _ _ h3]

/-- With lexically closed texts of the generator, the scanner reads the statement tree in
its text: every word of the tree as code, the braces of its blocks as pairs. -/
theorem statementTree_reads (t : GeneratedTexts) (n k : Nat)
    (hD : Closed t.declarations) (hW : Closed t.whileConditions) (hC : Closed t.conditions)
    (hA : Closed t.actions) (hS : Closed t.subEvents) :
    (statementTree t
      ((List.range n).foldl
        (fun acc i => acc ++ (" && condition" ++ ToString i ++ "IsTrue")) "true")
      ((List.range k).foldl
        (fun acc i => acc ++ (" && condition" ++ ToString i ++ "IsTrue")) "true")).reads
      (Lex.code, 0) = some (Lex.code, 0) := by
  have w0 : readWord "bool stopDoWhile = false;" (Lex.code, 0) = some (Lex.code, 0) := by
    decide
  have w1 : readWord "do" (Lex.code, 0) = some (Lex.code, 0) := by decide
  have w2 : ∀ d, d < 4 → readWord "\x7b" (Lex.code, d) = some (Lex.code, d + 1) := by decide
  have w3 : ∀ d, d < 4 → readWord "\x7d" (Lex.code, d + 1) = some (Lex.code, d) := by decide
  have w4 : ∀ d, d < 5 → readWord "\n" (Lex.code, d) = some (Lex.code, d) := by decide
  have w5 : readWord " //Subevents: \n" (Lex.code, 4) = some (Lex.code, 4) := by decide
  have w6 : readWord " //Subevents end.\n" (Lex.code, 3) = some (Lex.code, 3) := by decide
  have w7 : readWord " else " (Lex.code, 1) = some (Lex.code, 1) := by decide
  have w8 : readWord "stopDoWhile = true;" (Lex.code, 1) = some (Lex.code, 1) := by decide
  have w9 : readWord " \n" (Lex.code, 1) = some (Lex.code, 1) := by decide
  have w10 : readWord " while ( !stopDoWhile );" (Lex.code, 0) = some (Lex.code, 0) := by
    decide
  have tw := readWord_plain _ 1 (plainChar_test n)
  have tg := readWord_plain _ 2 (plainChar_test k)
  simp only [statementTree, loopBody, Stmt.reads, Option.bind_eq_bind, Option.some_bind, w0,
    w1, w2 0 (by decide), w2 1 (by decide), w2 2 (by decide), w2 3 (by decide),
    w3 0 (by decide), w3 1 (by decide), w3 2 (by decide), w3 3 (by decide),
    w4 0 (by decide), w4 1 (by decide), w4 2 (by decide), w4 3 (by decide), w5, w6, w7, w8,
    w9, w10, tw, tg, readFragment_closed _ _ hD, readFragment_closed _ _ hW,
    readFragment_closed _ _ hC, readFragment_closed _ _ hA, readFragment_closed _ _ hS,
    if_true]

/-- The text of the statement tree is the text that `GenerateEventCode` returns. -/
theorem WhileEvent.GenerateEventCode_tree {Ev G C : Type}
    (cg : EventsCodeGenerator G C Ev) (e : WhileEvent Ev) (g : G) (pc : C) :
    (WhileEvent.GenerateEventCode cg e g pc).1 =
      (statementTree (WhileEvent.generatedTexts cg e g pc) e.whileIfPredicat
        e.ifPredicat).text := by
  rw [WhileEvent.GenerateEventCode_text]
  apply String.ext
  simp [statementTree, loopBody, Stmt.text, String.data_append]

/-- The live positions of the two tests: with lexically closed declarations,
while-conditions code and conditions code, the test of the while-predicate is read as code
at depth 1, and the test of the guard predicate is read as code at depth 2, after the brace
that follows the test of the while-predicate. -/
theorem scan_tests (D W C whileTest : String) (hD : Closed D) (hW : Closed W) (hC : Closed C)
    (hwt : ∀ c ∈ whileTest.data, plainChar c = true) :
    scan ("bool stopDoWhile = false;do\x7b\n" ++ D ++ W).data (Lex.code, 0)
      = some (Lex.code, 1) ∧
    scan ("bool stopDoWhile = false;do\x7b\n" ++ D ++ W ++ whileTest ++ "\x7b"
      ++ ("\n" ++ C)).data (Lex.code, 0) = some (Lex.code, 2) := by
  have l0 : scan "bool stopDoWhile = false;do\x7b\n".data (Lex.code, 0) = some (Lex.code, 1) := by
    decide
  have l1 : scan "\x7b".data (Lex.code, 1) = some (Lex.code, 2) := by decide
  have l2 : scan "\n".data (Lex.code, 2) = some (Lex.code, 2) := by decide
  have h1 : scan ("bool stopDoWhile = false;do\x7b\n" ++ D ++ W).data (Lex.code, 0)
      = some (Lex.code, 1) := by
    rw [String.data_append, String.data_append]
    simp only [scan_append, l0, hD.scan, hW.scan, Option.bind_eq_bind, Option.some_bind]
  refine ⟨h1, ?_⟩
  rw [String.data_append, String.data_append, String.data_append, scan_append, scan_append,
    scan_append, h1, String.data_append]
  simp only [scan_append, scan_plain _ _ hwt, l1, l2, hC.scan, Option.bind_eq_bind,
    Option.some_bind]

/-- One pass through the block of the loop: the declarations and the while-conditions code
run and the while-predicate is tested; when it holds, the conditions code runs and the
guard predicate is tested, and when that holds too the actions and then the sub-events run;
when the while-predicate does not hold, `stopDoWhile` is set to true and nothing else
runs. `stopDoWhile` is not written otherwise. -/
theorem loopBody_exec {S : Type} (t : GeneratedTexts) (wp gp : String) (m : Meaning S)
    (fuel : Nat) (r : RunState S) :
    (m.holds .whilePredicate (m.run .whileConditions (m.run .declarations r.state)) = true →
     m.holds .guardPredicate
        (m.run .conditions (m.run .whileConditions (m.run .declarations r.state))) = true →
      ((loopBody t wp gp).exec m fuel r).trace = r.trace ++
        [RunEvent.ran .declarations, RunEvent.ran .whileConditions,
         RunEvent.tested .whilePredicate true, RunEvent.ran .conditions,
         RunEvent.tested .guardPredicate true, RunEvent.ran .actions,
         RunEvent.ran .subEvents] ∧
      ((loopBody t wp gp).exec m fuel r).stopDoWhile = r.stopDoWhile) ∧
    (m.holds .whilePredicate (m.run .whileConditions (m.run .declarations r.state)) = true →
     m.holds .guardPredicate
        (m.run .conditions (m.run .whileConditions (m.run .declarations r.state))) = false →
      ((loopBody t wp gp).exec m fuel r).trace = r.trace ++
        [RunEvent.ran .declarations, RunEvent.ran .whileConditions,
         RunEvent.tested .whilePredicate true, RunEvent.ran .conditions,
         RunEvent.tested .guardPredicate false] ∧
      ((loopBody t wp gp).exec m fuel r).stopDoWhile = r.stopDoWhile) ∧
    (m.holds .whilePredicate (m.run .whileConditions (m.run .declarations r.state)) = false →
      ((loopBody t wp gp).exec m fuel r).trace = r.trace ++
        [RunEvent.ran .declarations, RunEvent.ran .whileConditions,
         RunEvent.tested .whilePredicate false, RunEvent.stopSet] ∧
      ((loopBody t wp gp).exec m fuel r).stopDoWhile = true) := by
  refine ⟨fun hw hg => ?_, fun hw hg => ?_, fun hw => ?_⟩
  · simp [loopBody, Stmt.exec, hw, hg]
  · simp [loopBody, Stmt.exec, hw, hg]
  · simp [loopBody, Stmt.exec, hw]

/-- The run of the whole fragment: `stopDoWhile` starts false and the block of the loop is
passed through until a pass leaves `stopDoWhile` true. -/
theorem statementTree_exec {S : Type} (t : GeneratedTexts) (wp gp : String) (m : Meaning S)
    (fuel : Nat) (r : RunState S) :
    (statementTree t wp gp).exec m fuel r =
      doLoop ((loopBody t wp gp).exec m fuel) fuel { r with stopDoWhile := false } := by
  simp [statementTree, Stmt.exec]

/-- The number of `=` that the event itself writes: two. -/
theorem WhileEvent.GenerateEventCode_countAssign {Ev G C : Type}
    (cg : EventsCodeGenerator G C Ev) (e : WhileEvent Ev) (g : G) (pc : C) :
    countAssign (WhileEvent.GenerateEventCode cg e g pc).1 =
      2 + countAssign (WhileEvent.generatedTexts cg e g pc).declarations
        + countAssign (WhileEvent.generatedTexts cg e g pc).whileConditions
        + countAssign (WhileEvent.generatedTexts cg e g pc).conditions
        + countAssign (WhileEvent.generatedTexts cg e g pc).actions
        + countAssign (WhileEvent.generatedTexts cg e g pc).subEvents := by
  have cw := count_assign_plain _ (plainChar_test e.whileConditions.length)
  have cg0 := count_assign_plain _ (plainChar_test e.conditions.length)
  have c0 : "bool stopDoWhile = false;".data.count '=' = 1 := by decide
  have c1 : "do".data.count '=' = 0 := by decide
  have c2 : "\x7b\n".data.count '=' = 0 := by decide
  have c3 : "\n\x7b //Subevents: \n".data.count '=' = 0 := by decide
  have c4 : "\x7d //Subevents end.\n".data.count '=' = 0 := by decide
  have c5 : "\x7d\n".data.count '=' = 0 := by decide
  have c6 : "\x7d else stopDoWhile = true; \n".data.count '=' = 1 := by decide
  have c7 : "\x7d while ( !stopDoWhile );\n".data.count '=' = 0 := by decide
  have c8 : ")\n\x7b\n".data.count '=' = 0 := by decide
  have c9 : "if (".data.count '=' = 0 := by decide
  rw [WhileEvent.GenerateEventCode_text]
  simp only [WhileEvent.whileIfPredicat, WhileEvent.ifPredicat, String.data_append,
    List.count_append] at cw cg0 ⊢
  simp only [countAssign, String.data_append, List.count_append, c0, c1, c2, c3, c4, c5, c6,
    c7, c8, c9]
  omega

end GDL
